import Mathlib

/-! # retro8 libretro front-end: frame pacing, rasterisation, input edges, audio shaping

A shallow embedding of `src/libretro/libretro.cpp` and of the keyboard handling of
`src/views/game_view.cpp`.  Globals of the translation unit become fields of `State`;
calls into the emulation core, the input manager and the host callbacks are recorded,
in program order, as values of `Call` (`ViewCall` for the desktop shell).

Machine integers are natural numbers with the wrap written out; a heap array is an
`Array` indexed from its first element, a store outside it is dropped and a load
outside it reads 0.
-/

namespace Retro8

/-! ## Build configuration and constants -/

/-- Compile-time switches of `libretro.cpp`, together with the two array bounds that
the file takes from `common.h` (`retro8::PLAYER_COUNT`, `retro8::BUTTON_COUNT`),
which are kept as parameters. -/
structure Build where
  SF2000 : Bool
  SOUND_ENABLED : Bool
  USE_RGB565 : Bool
  ABGR1555 : Bool
  PLAYER_COUNT : Nat
  BUTTON_COUNT : Nat

/-- Source: `constexpr int SAMPLE_RATE`, 44100 unless `SF2000` is defined. -/
def SAMPLE_RATE (b : Build) : Nat := if b.SF2000 then 11025 else 44100

/-- Source: `constexpr int SAMPLES_PER_FRAME = SAMPLE_RATE / 60`. -/
def SAMPLES_PER_FRAME (b : Build) : Nat := SAMPLE_RATE b / 60

/-- Source: `constexpr int SOUND_CHANNELS = 2`. -/
def SOUND_CHANNELS : Nat := 2

/-- Modelled from the spec: `r8::gfx::SCREEN_WIDTH` of `vm/gfx.h`, the width of the
fixed 128×128 logical screen. -/
def SCREEN_WIDTH : Nat := 128

/-- Modelled from the spec: `r8::gfx::SCREEN_HEIGHT` of `vm/gfx.h`, the height of the
fixed 128×128 logical screen. -/
def SCREEN_HEIGHT : Nat := 128

/-- Modelled from the spec: `r8::gfx::BYTES_PER_SCREEN` of `vm/gfx.h`; every byte of
the paletted buffer holds two horizontally adjacent pixels. -/
def BYTES_PER_SCREEN : Nat := SCREEN_WIDTH * SCREEN_HEIGHT / 2

/-- Modelled from the spec: `color_byte_t::low()` of `vm/gfx.h`, the palette index in
the low nibble of a packed pixel pair. -/
def low (value : Nat) : Nat := value &&& 0x0F

/-- Modelled from the spec: `color_byte_t::high()` of `vm/gfx.h`, the palette index in
the high nibble of a packed pixel pair. -/
def high (value : Nat) : Nat := (value >>> 4) &&& 0x0F

/-! ## Colour mappers and screens -/

/-- Source: `Screen32::ColorMapper32::operator()`; `r`, `g`, `b` are `uint8_t`. -/
def ColorMapper32 (r g b : Nat) : Nat :=
  0xff000000 ||| (r <<< 16) ||| (g <<< 8) ||| b

/-- Source: `Screen16::ColorMapper16::operator()`, both `#ifdef ABGR1555` arms. -/
def ColorMapper16 (bld : Build) (r g b : Nat) : Nat :=
  if bld.ABGR1555 then
    ((b &&& 0xf8) <<< 7) ||| ((g &&& 0xf8) <<< 2) ||| ((r &&& 0xf8) >>> 3)
  else
    ((r &&& 0xf8) <<< 8) ||| ((g &&& 0xfc) <<< 3) ||| ((b &&& 0xf8) >>> 3)

/-- A colour of the master ramp, as the three `uint8_t` channels handed to a mapper. -/
structure Rgb where
  r : Nat
  g : Nat
  b : Nat

/-- Modelled from the spec: `r8::gfx::ColorTable` of `vm/gfx.h`, a precomputed mapping
from colour identifiers to host pixel values, read through `get`. -/
structure ColorTable where
  get : Nat → Nat

/-- Modelled from the spec: `r8::gfx::ColorTable::init` of `vm/gfx.h`; the table holds,
for every colour identifier, the mapper applied to that colour's triple in the master
ramp. -/
def ColorTable.init (mapper : Nat → Nat → Nat → Nat) (ramp : Nat → Rgb) : ColorTable :=
  { get := fun c => mapper (ramp c).r (ramp c).g (ramp c).b }

/-- Source: `template <typename pixel_t> class Screen`.  `bits` is the width of
`pixel_t`, `buffer` is the pixel array.  `writes`
is a ghost log of the element indices stored to by `draw`, in program order. -/
structure Screen where
  bits : Nat
  colorTable : ColorTable
  buffer : Array Nat
  writes : Array Nat

/-- Source: `Screen32::Screen32()`, on top of `Screen<uint32_t>::Screen()`.  The
freshly allocated pixels are unspecified in C++; they are zero here. -/
def Screen32.new (ramp : Nat → Rgb) : Screen :=
  { bits := 32, colorTable := ColorTable.init ColorMapper32 ramp,
    buffer := mkArray (SCREEN_WIDTH * SCREEN_HEIGHT) 0, writes := #[] }

/-- Source: `Screen16::Screen16()`, on top of `Screen<uint16_t>::Screen()`. -/
def Screen16.new (bld : Build) (ramp : Nat → Rgb) : Screen :=
  { bits := 16, colorTable := ColorTable.init (ColorMapper16 bld) ramp,
    buffer := mkArray (SCREEN_WIDTH * SCREEN_HEIGHT) 0, writes := #[] }

/-- A store `*p = v` through a `pixel_t*`: the value is converted to `pixel_t`
(reduced modulo `2 ^ bits`) and the index is logged. -/
def Screen.store (s : Screen) (p v : Nat) : Screen :=
  { bits := s.bits, colorTable := s.colorTable,
    buffer := s.buffer.setD p (v % 2 ^ s.bits), writes := s.writes.push p }

/-- One iteration of the loop of `Screen::draw`; the loop state is the screen and
the local `pointer`, as an element index into `buffer`. -/
def Screen.drawStep (data palette : Nat → Nat) (acc : Screen × Nat) (i : Nat) :
    Screen × Nat :=
  let s := acc.1
  let pointer := acc.2
  let pixels := data i
  let rc1 := s.colorTable.get (palette (low pixels))
  let rc2 := s.colorTable.get (palette (high pixels))
  let s1 := s.store pointer rc1
  let s2 := s1.store (pointer + 1) rc2
  (s2, pointer + 2)

/-- The loop of `Screen::draw` run for `n` iterations from `pointer = buffer`; the
store log starts empty at every call. -/
def Screen.drawLoop (n : Nat) (data palette : Nat → Nat) (s : Screen) : Screen × Nat :=
  (List.range n).foldl (Screen.drawStep data palette)
    ({ bits := s.bits, colorTable := s.colorTable, buffer := s.buffer, writes := #[] }, 0)

/-- Source: `Screen::draw(data, palette)`.  `data i` is the byte `data[i]`,
`palette` is `palette->get`. -/
def Screen.draw (data palette : Nat → Nat) (s : Screen) : Screen :=
  (Screen.drawLoop BYTES_PER_SCREEN data palette s).1

/-! ## Globals and the call trace -/

/-- The pixel formats proposed to the host through
`RETRO_ENVIRONMENT_SET_PIXEL_FORMAT`. -/
inductive PixelFormat where
  | XRGB8888
  | RGB565
  deriving DecidableEq, Repr

/-- Calls that leave `libretro.cpp`: into the emulation core (`machine`, `loader`),
into the input manager (`input`) and into the host callbacks of `env`.
`screenDraw` marks the call of `Screen::draw` on the wide (`true`) or narrow
screen; `video` and `audioBatch` name the buffer they pass by the screen and by
the element offset into `audioBuffer`.  Log lines (`env.logger`) are left out. -/
inductive Call where
  | newMachine
  | fontLoad
  | loadAPI
  | setMachine
  | inputReset
  | loadCartridge
  | backupCartridge
  | codeInit
  | soundInit
  | setPixelFormat (fmt : PixelFormat)
  | update
  | draw
  | screenDraw (wide : Bool)
  | manageKeyRepeat
  | video (wide : Bool) (width height pitch : Nat)
  | renderSounds (count : Nat)
  | audioBatch (offset frames : Nat)
  | inputPoll
  | manageKey (player button : Nat) (pressed : Bool)
  | tick
  deriving DecidableEq, Repr

/-- Source: `struct RetroArchEnv`, the two data fields read by the pipeline.
`frameCounter` is a `uint32_t`. -/
structure RetroArchEnv where
  frameCounter : Nat
  isRGB32 : Bool

/-- The globals of `libretro.cpp` and the function-static `btnState` of `retro_run`.
`audioBuffer` is the `int16_t` array allocated by `retro_init` (empty before). -/
structure State where
  env : RetroArchEnv
  screen16 : Option Screen
  screen32 : Option Screen
  audioBuffer : Array Int
  btnState : Nat → Nat → Bool

/-- Source: `retro_init()`, which allocates `new int16_t[SAMPLE_RATE * 2]`.  The fresh
samples are unspecified in C++; they are zero here. -/
def retro_init (bld : Build) (s : State) : State :=
  { s with audioBuffer := mkArray (SAMPLE_RATE bld * 2) 0 }

/-! ## Pixel-format negotiation and `retro_load_game` -/

/-- Source: `tryScreen32()`.  `retro_cb` is the host's answer to a proposed format. -/
def tryScreen32 (ramp : Nat → Rgb) (retro_cb : PixelFormat → Bool) (s : State) :
    Bool × State × List Call :=
  let pixelFormat := PixelFormat.XRGB8888
  if !retro_cb pixelFormat then
    (false, s, [Call.setPixelFormat pixelFormat])
  else
    (true,
     { s with env := { s.env with isRGB32 := true }, screen32 := some (Screen32.new ramp) },
     [Call.setPixelFormat pixelFormat])

/-- Source: `tryScreen16()`. -/
def tryScreen16 (bld : Build) (ramp : Nat → Rgb) (retro_cb : PixelFormat → Bool)
    (s : State) : Bool × State × List Call :=
  let pixelFormat := PixelFormat.RGB565
  if !retro_cb pixelFormat then
    (false, s, [Call.setPixelFormat pixelFormat])
  else
    (true,
     { s with env := { s.env with isRGB32 := false },
              screen16 := some (Screen16.new bld ramp) },
     [Call.setPixelFormat pixelFormat])

/-- Source: `const retro_game_info* info`, of which only `info->data` is tested. -/
structure GameInfo where
  data : Option (List Nat)

/-- Source: the condition `!tryA() && !tryB()` of `retro_load_game`, with the
short circuit of `&&`; `tryA` is `tryScreen16` under `USE_RGB565` and
`tryScreen32` otherwise.  The Boolean returned is the value of the condition. -/
def negotiate (bld : Build) (ramp : Nat → Rgb) (retro_cb : PixelFormat → Bool)
    (s : State) : Bool × State × List Call :=
  let tryA := if bld.USE_RGB565 then tryScreen16 bld ramp retro_cb
              else tryScreen32 ramp retro_cb
  let tryB := if bld.USE_RGB565 then tryScreen32 ramp retro_cb
              else tryScreen16 bld ramp retro_cb
  let ra := tryA s
  if !ra.1 then
    let rb := tryB ra.2.1
    (!rb.1, rb.2.1, ra.2.2 ++ rb.2.2)
  else
    (false, ra.2.1, ra.2.2)

/-- Source: `retro_load_game(info)`.  Decoding the cartridge and running its
`_init` belong to the emulation core and appear as calls only; `hasInit` is the
answer of `machine->code().hasInit()`. -/
def retro_load_game (bld : Build) (ramp : Nat → Rgb) (retro_cb : PixelFormat → Bool)
    (hasInit : Bool) (info : Option GameInfo) (s : State) : Bool × State × List Call :=
  let c0 := [Call.newMachine, Call.fontLoad, Call.loadAPI, Call.setMachine]
  match info.bind GameInfo.data with
  | some _ =>
    let c1 := c0 ++ [Call.inputReset, Call.loadCartridge, Call.backupCartridge]
    let c2 := if hasInit then c1 ++ [Call.codeInit] else c1
    let c3 := if bld.SOUND_ENABLED then c2 ++ [Call.soundInit] else c2
    let s1 := { s with env := { s.env with frameCounter := 0 } }
    let s2 := { s1 with screen16 := none, screen32 := none }
    let r := negotiate bld ramp retro_cb s2
    if r.1 then (false, r.2.1, c3 ++ r.2.2)
    else (true, r.2.1, c3 ++ r.2.2)
  | none => (false, s, c0)

/-- Source: `retro_unload_game()`. -/
def retro_unload_game (s : State) : State :=
  { s with screen16 := none, screen32 := none }

/-! ## `retro_run` -/

/-- What the collaborators answer during one call of `retro_run`: the cartridge's
cadence flag, the paletted screen memory and screen palette left by
`update`/`draw`, the mono samples the synthesizer renders, and the host's
`inputState(port, RETRO_DEVICE_JOYPAD, 0, id)` as an `int16_t`. -/
structure Tick where
  require60fps : Bool
  screenData : Nat → Nat
  screenPalette : Nat → Nat
  samples : Nat → Int
  inputState : Nat → Nat → Int

/-- Source: the first `if` of `retro_run`; `none` is a dereference of a `NULL`
screen. -/
def emulationStep (m : Tick) (s : State) : Option (State × List Call) :=
  if m.require60fps || s.env.frameCounter % 2 == 0 then
    if s.env.isRGB32 then
      match s.screen32 with
      | some scr =>
        some ({ s with screen32 := some (scr.draw m.screenData m.screenPalette) },
              [Call.update, Call.draw, Call.screenDraw true, Call.manageKeyRepeat])
      | none => none
    else
      match s.screen16 with
      | some scr =>
        some ({ s with screen16 := some (scr.draw m.screenData m.screenPalette) },
              [Call.update, Call.draw, Call.screenDraw false, Call.manageKeyRepeat])
      | none => none
  else
    some (s, [])

/-- Source: the `env.video(...)` call of `retro_run`; the pitch is
`SCREEN_WIDTH * sizeof(pixel_t)`. -/
def present (s : State) : Option (List Call) :=
  if s.env.isRGB32 then
    match s.screen32 with
    | some _ => some [Call.video true SCREEN_WIDTH SCREEN_HEIGHT (SCREEN_WIDTH * 4)]
    | none => none
  else
    match s.screen16 with
    | some _ => some [Call.video false SCREEN_WIDTH SCREEN_HEIGHT (SCREEN_WIDTH * 2)]
    | none => none

/-- Stores `f 0, ..., f (count - 1)` to `buffer[0 .. count)`. -/
def fill (f : Nat → Int) (buffer : Array Int) (count : Nat) : Array Int :=
  (List.range count).foldl (fun buf j => buf.setD j (f j)) buffer

/-- Modelled from the spec: `APU::renderSounds(buffer, count)` of the emulation core,
which writes the `count` rendered mono samples to `buffer[0 .. count)`. -/
def renderSounds (samples : Nat → Int) (buffer : Array Int) (count : Nat) : Array Int :=
  fill samples buffer count

/-- One iteration of the "duplicate channels" loop; `audioBuffer2` is
`audioBuffer + SAMPLE_RATE`.  Each store reads `audioBuffer[i]` from the memory as
it is at that point. -/
def duplicateStep (bld : Build) (buf : Array Int) (i : Nat) : Array Int :=
  let audioBuffer2 := SAMPLE_RATE bld
  let buf1 := buf.setD (audioBuffer2 + 2 * i) (buf.getD i 0)
  buf1.setD (audioBuffer2 + (2 * i + 1)) (buf1.getD i 0)

/-- Source: the `#if SOUND_ENABLED ... #else ... #endif` section of `retro_run`; the
`memset` of the second arm clears `2 * SAMPLES_PER_FRAME` samples. -/
def audio (bld : Build) (m : Tick) (s : State) : State × List Call :=
  if bld.SOUND_ENABLED then
    let rendered := renderSounds m.samples s.audioBuffer (SAMPLES_PER_FRAME bld)
    let buf := (List.range (SAMPLES_PER_FRAME bld)).foldl (duplicateStep bld) rendered
    ({ s with audioBuffer := buf },
     [Call.renderSounds (SAMPLES_PER_FRAME bld),
      Call.audioBatch (SAMPLE_RATE bld) (SAMPLES_PER_FRAME bld)])
  else
    let buf := fill (fun _ => 0) s.audioBuffer (2 * SAMPLES_PER_FRAME bld)
    ({ s with audioBuffer := buf }, [Call.audioBatch 0 (SAMPLES_PER_FRAME bld)])

/-- The `int16_t` values the host reads from an `audioBatch(data, frames)` call:
`frames` interleaved frames of `SOUND_CHANNELS` samples starting at `data`. -/
def delivered (s : State) (offset frames : Nat) : List Int :=
  (s.audioBuffer.extract offset (offset + SOUND_CHANNELS * frames)).toList

/-- The libretro joypad identifiers used by `mapping` (values of `libretro.h`). -/
def RETRO_DEVICE_ID_JOYPAD_B : Nat := 0
/-- See `RETRO_DEVICE_ID_JOYPAD_B`. -/
def RETRO_DEVICE_ID_JOYPAD_UP : Nat := 4
/-- See `RETRO_DEVICE_ID_JOYPAD_B`. -/
def RETRO_DEVICE_ID_JOYPAD_DOWN : Nat := 5
/-- See `RETRO_DEVICE_ID_JOYPAD_B`. -/
def RETRO_DEVICE_ID_JOYPAD_LEFT : Nat := 6
/-- See `RETRO_DEVICE_ID_JOYPAD_B`. -/
def RETRO_DEVICE_ID_JOYPAD_RIGHT : Nat := 7
/-- See `RETRO_DEVICE_ID_JOYPAD_B`. -/
def RETRO_DEVICE_ID_JOYPAD_A : Nat := 8

/-- Source: `const static int16_t mapping[retro8::BUTTON_COUNT]`; entries past the
six initialisers are zero. -/
def mapping (r8bt : Nat) : Nat :=
  [RETRO_DEVICE_ID_JOYPAD_LEFT, RETRO_DEVICE_ID_JOYPAD_RIGHT, RETRO_DEVICE_ID_JOYPAD_UP,
   RETRO_DEVICE_ID_JOYPAD_DOWN, RETRO_DEVICE_ID_JOYPAD_A, RETRO_DEVICE_ID_JOYPAD_B].getD r8bt 0

/-- The Boolean the input loop obtains for a (player, button) pair:
`const bool isSet = env.inputState(player, RETRO_DEVICE_JOYPAD, 0, mapping[r8bt])`. -/
def polled (m : Tick) (player r8bt : Nat) : Bool :=
  m.inputState player (mapping r8bt) != 0

/-- Source: the body of the inner `for (r8bt ...)` loop of the input section. -/
def buttonStep (m : Tick) (player : Nat) (acc : (Nat → Nat → Bool) × List Call)
    (r8bt : Nat) : (Nat → Nat → Bool) × List Call :=
  let isSet := polled m player r8bt
  let wasSet := acc.1 player r8bt
  let calls := if wasSet != isSet then acc.2 ++ [Call.manageKey player r8bt isSet] else acc.2
  (fun p b => if p = player ∧ b = r8bt then isSet else acc.1 p b, calls)

/-- Source: the body of the outer `for (player ...)` loop: the button loop, then
`input.tick()`. -/
def playerStep (bld : Build) (m : Tick) (acc : (Nat → Nat → Bool) × List Call)
    (player : Nat) : (Nat → Nat → Bool) × List Call :=
  let r := (List.range bld.BUTTON_COUNT).foldl (buttonStep m player) acc
  (r.1, r.2 ++ [Call.tick])

/-- Source: the `/* manage input */` block of `retro_run`, from `btnState` to the new
`btnState` and the calls made. -/
def manageInput (bld : Build) (m : Tick) (btnState : Nat → Nat → Bool) :
    (Nat → Nat → Bool) × List Call :=
  (List.range bld.PLAYER_COUNT).foldl (playerStep bld m) (btnState, [Call.inputPoll])

/-- Source: `retro_run()`. -/
def retro_run (bld : Build) (m : Tick) (s : State) : Option (State × List Call) :=
  match emulationStep m s with
  | none => none
  | some (s1, c1) =>
    match present s1 with
    | none => none
    | some c2 =>
      let s2 := { s1 with env := { s1.env with
                    frameCounter := (s1.env.frameCounter + 1) % 2 ^ 32 } }
      let r3 := audio bld m s2
      let r4 := manageInput bld m r3.1.btnState
      some ({ r3.1 with btnState := r4.1 }, c1 ++ c2 ++ r3.2 ++ r4.2)

/-- Consecutive calls of `retro_run`, one per element of `ms`; the calls of all ticks
are concatenated in order. -/
def runTicks (bld : Build) : List Tick → State → Option (State × List Call)
  | [], s => some (s, [])
  | m :: ms, s =>
    match retro_run bld m s with
    | none => none
    | some (s1, c1) =>
      match runTicks bld ms s1 with
      | none => none
      | some (s2, c2) => some (s2, c1 ++ c2)

/-! ## The input section as an explicit trace -/

/-- The edge call of one (player, button) pair in one tick: a `manageKey` with the
polled value when it differs from the stored one, nothing otherwise. -/
def edgeCalls (m : Tick) (btnState : Nat → Nat → Bool) (player r8bt : Nat) : List Call :=
  if btnState player r8bt != polled m player r8bt then
    [Call.manageKey player r8bt (polled m player r8bt)]
  else []

/-- The calls of one round of the player loop. -/
def playerCalls (bld : Build) (m : Tick) (btnState : Nat → Nat → Bool) (player : Nat) :
    List Call :=
  (List.range bld.BUTTON_COUNT).flatMap (edgeCalls m btnState player) ++ [Call.tick]

/-- The calls of the whole input section. -/
def inputCalls (bld : Build) (m : Tick) (btnState : Nat → Nat → Bool) : List Call :=
  Call.inputPoll :: (List.range bld.PLAYER_COUNT).flatMap (playerCalls bld m btnState)

/-! ## Observations on states and call traces -/

/-- The screen selected by `env.isRGB32`, which `retro_run` dereferences. -/
def activeScreen (s : State) : Option Screen :=
  if s.env.isRGB32 then s.screen32 else s.screen16

/-- The state of a loaded game: the screen selected by `env.isRGB32` is not `NULL`. -/
def Loaded (s : State) : Prop := (activeScreen s).isSome = true

/-- The calls of the emulation step when it runs. -/
def stepCalls (m : Tick) (s : State) : List Call :=
  if m.require60fps || s.env.frameCounter % 2 == 0 then
    [Call.update, Call.draw, Call.screenDraw s.env.isRGB32, Call.manageKeyRepeat]
  else []

/-- The `env.video` call of a tick. -/
def videoCall (s : State) : Call :=
  Call.video s.env.isRGB32 SCREEN_WIDTH SCREEN_HEIGHT
    (SCREEN_WIDTH * (if s.env.isRGB32 then 4 else 2))

/-- Whether a call belongs to the audio section. -/
def isAudioCall : Call → Bool
  | Call.renderSounds _ => true
  | Call.audioBatch _ _ => true
  | _ => false

/-- The value of a `manageKey` call for the given (player, button), if the call is
one. -/
def keyEvent (player r8bt : Nat) : Call → Option Bool
  | Call.manageKey p b v => if p = player ∧ b = r8bt then some v else none
  | _ => none

/-- The values forwarded by `manageKey` for one (player, button), in call order. -/
def eventsFor (player r8bt : Nat) (calls : List Call) : List Bool :=
  calls.filterMap (keyEvent player r8bt)

/-- The state changes of a Boolean signal that starts at `prev`: every value that
differs from the one before it, in order. -/
def changes : Bool → List Bool → List Bool
  | _, [] => []
  | prev, v :: vs => if v != prev then v :: changes v vs else changes v vs

/-- The list `v, !v, v, ...` of length `n`: presses and releases in alternation. -/
def alternating : Bool → Nat → List Bool
  | _, 0 => []
  | v, n + 1 => v :: alternating (!v) n

/-- The frame count of an `audioBatch` call, if the call is one. -/
def batchFrames : Call → Option Nat
  | Call.audioBatch _ frames => some frames
  | _ => none

/-- The sample count of a `renderSounds` call, if the call is one. -/
def renderCount : Call → Option Nat
  | Call.renderSounds count => some count
  | _ => none

/-! ## The audio section with an access log -/

/-- The audio buffer together with a ghost log of the element indices loaded from or
stored to, in program order. -/
structure AudioMem where
  buffer : Array Int
  accessed : Array Nat

/-- A load `buffer[i]`, logged. -/
def AudioMem.load (a : AudioMem) (i : Nat) : Int × AudioMem :=
  (a.buffer.getD i 0, { buffer := a.buffer, accessed := a.accessed.push i })

/-- A store `buffer[i] = v`, logged. -/
def AudioMem.store (a : AudioMem) (i : Nat) (v : Int) : AudioMem :=
  { buffer := a.buffer.setD i v, accessed := a.accessed.push i }

/-- The stores of `fill`, logged. -/
def fillLogged (f : Nat → Int) (a : AudioMem) (count : Nat) : AudioMem :=
  (List.range count).foldl (fun acc j => acc.store j (f j)) a

/-- Source: one iteration of the "duplicate channels" loop, as `duplicateStep`, with
its two loads of `audioBuffer[i]` and its two stores logged. -/
def duplicateStepLogged (bld : Build) (a : AudioMem) (i : Nat) : AudioMem :=
  let audioBuffer2 := SAMPLE_RATE bld
  let r1 := a.load i
  let a1 := r1.2.store (audioBuffer2 + 2 * i) r1.1
  let r2 := a1.load i
  r2.2.store (audioBuffer2 + (2 * i + 1)) r2.1

/-- Source: the `#if SOUND_ENABLED ... #else ... #endif` section of `retro_run`, as
`audio`, with every access to `audioBuffer` made before the `audioBatch` call logged. -/
def audioLogged (bld : Build) (m : Tick) (audioBuffer : Array Int) : AudioMem :=
  if bld.SOUND_ENABLED then
    let rendered := fillLogged m.samples { buffer := audioBuffer, accessed := #[] }
      (SAMPLES_PER_FRAME bld)
    (List.range (SAMPLES_PER_FRAME bld)).foldl (duplicateStepLogged bld) rendered
  else
    fillLogged (fun _ => 0) { buffer := audioBuffer, accessed := #[] }
      (2 * SAMPLES_PER_FRAME bld)

/-! ## The desktop shell: `GameView` keyboard handling -/

/-- The key symbols `GameView::handleKeyboardEvent` switches on (constants of a header
outside `src`; they are distinct, being labels of one `switch`); `other` is any
symbol that reaches `default`. -/
inductive Key where
  | KEY_LEFT
  | KEY_RIGHT
  | KEY_UP
  | KEY_DOWN
  | KEY_ACTION1_1
  | KEY_ACTION1_2
  | KEY_ACTION2_1
  | KEY_ACTION2_2
  | KEY_MUTE
  | KEY_PAUSE
  | KEY_NEXT_SCALER
  | KEY_MENU
  | KEY_EXIT
  | other
  deriving DecidableEq, Repr

/-- Source: the `SDL_Event` passed to `handleKeyboardEvent`: `keydown` is
`event.type == SDL_KEYDOWN`, `sym` is `event.key.keysym.sym`. -/
structure KeyboardEvent where
  keydown : Bool
  sym : Key
  deriving DecidableEq, Repr

/-- Calls that leave `GameView`'s keyboard handling: into the input manager, the sound
unit of the machine, the SDL audio device and the view manager. -/
inductive ViewCall where
  | manageKey (player button : Nat) (pressed : Bool)
  | toggleMusic (active : Bool)
  | toggleSound (active : Bool)
  | audioPause
  | audioResume
  | openMenu
  | exit
  deriving DecidableEq, Repr

/-- Source: the data members of `GameView` that the keyboard handling reads or writes.
`_scaler` is the `Scaler` enumerator as a number. -/
structure GameView where
  _paused : Bool
  _showFPS : Bool
  _showCartridgeName : Bool
  _scaler : Nat

/-- Source: `GameView::GameView(manager)`; `_scaler` is not set by the initialiser
list and is a parameter. -/
def GameView.new (scaler : Nat) : GameView :=
  { _paused := false, _showFPS := false, _showCartridgeName := false, _scaler := scaler }

/-- Source: `GameView::pause()`. -/
def GameView.pause (bld : Build) (v : GameView) : GameView × List ViewCall :=
  ({ v with _paused := true }, if bld.SOUND_ENABLED then [ViewCall.audioPause] else [])

/-- Source: `GameView::resume()`. -/
def GameView.resume (bld : Build) (v : GameView) : GameView × List ViewCall :=
  ({ v with _paused := false }, if bld.SOUND_ENABLED then [ViewCall.audioResume] else [])

/-- Source: `GameView::handleKeyboardEvent(event)`.  `first` and `last` are
`Scaler::FIRST` and `Scaler::LAST`; `isMusicEnabled` is the answer of
`machine->sound().isMusicEnabled()`. -/
def GameView.handleKeyboardEvent (bld : Build) (first last : Nat) (isMusicEnabled : Bool)
    (v : GameView) (event : KeyboardEvent) : GameView × List ViewCall :=
  match event.sym with
  | Key.KEY_LEFT => (v, [ViewCall.manageKey 0 0 event.keydown])
  | Key.KEY_RIGHT => (v, [ViewCall.manageKey 0 1 event.keydown])
  | Key.KEY_UP => (v, [ViewCall.manageKey 0 2 event.keydown])
  | Key.KEY_DOWN => (v, [ViewCall.manageKey 0 3 event.keydown])
  | Key.KEY_ACTION1_1 => (v, [ViewCall.manageKey 0 4 event.keydown])
  | Key.KEY_ACTION1_2 => (v, [ViewCall.manageKey 0 5 event.keydown])
  | Key.KEY_ACTION2_1 => (v, [ViewCall.manageKey 1 4 event.keydown])
  | Key.KEY_ACTION2_2 => (v, [ViewCall.manageKey 1 5 event.keydown])
  | Key.KEY_MUTE =>
    if event.keydown then
      let s := isMusicEnabled
      (v, [ViewCall.toggleMusic (!s), ViewCall.toggleSound (!s)])
    else (v, [])
  | Key.KEY_PAUSE =>
    if event.keydown then
      if v._paused then v.pause bld
      else v.resume bld
    else (v, [])
  | Key.KEY_NEXT_SCALER =>
    if event.keydown then
      if v._scaler < last then ({ v with _scaler := v._scaler + 1 }, [])
      else ({ v with _scaler := first }, [])
    else (v, [])
  | Key.KEY_MENU => (v, [ViewCall.openMenu])
  | Key.KEY_EXIT => if event.keydown then (v, [ViewCall.exit]) else (v, [])
  | Key.other => (v, [])

/-- Keyboard events handled one after the other; each comes with the answer of
`isMusicEnabled()` at that moment. -/
def GameView.handleKeyboardEvents (bld : Build) (first last : Nat) :
    List (Bool × KeyboardEvent) → GameView → GameView × List ViewCall
  | [], v => (v, [])
  | e :: es, v =>
    let r1 := v.handleKeyboardEvent bld first last e.1 e.2
    let r2 := GameView.handleKeyboardEvents bld first last es r1.1
    (r2.1, r1.2 ++ r2.2)

/-! ## `retro_load_game` with the assertion of its PNG branch -/

/-- The globals as they are when the library is loaded: statics are
zero-initialised, no screen and no audio buffer exist. -/
def zeroState : State :=
  { env := { frameCounter := 0, isRGB32 := false }, screen16 := none, screen32 := none,
    audioBuffer := #[], btnState := fun _ _ => false }

/-- The default build: 44100 Hz, sound enabled, wide format tried first, two players
with six buttons. -/
def defaultBuild : Build :=
  { SF2000 := false, SOUND_ENABLED := true, USE_RGB565 := false, ABGR1555 := false,
    PLAYER_COUNT := 2, BUTTON_COUNT := 6 }

/-- The globals of the default build after `retro_init`. -/
def bootState : State := retro_init defaultBuild zeroState

/-- A master ramp used in examples: grey levels. -/
def greyRamp (c : Nat) : Rgb := { r := c * 17 % 256, g := c * 17 % 256, b := c * 17 % 256 }

/-- A host that accepts only the narrow format. -/
def narrowOnlyHost : PixelFormat → Bool
  | PixelFormat.XRGB8888 => false
  | PixelFormat.RGB565 => true

/-- A non-null `retro_game_info` with non-null data. -/
def someGame : Option GameInfo := some { data := some [0x70, 0x69, 0x63, 0x6f] }

/-- A tick of a cartridge with the given cadence flag, a blank screen, the identity
palette, silence, and the joypad bits of `held` pressed for every player. -/
def quietTick (require60fps : Bool) (held : Nat → Bool) : Tick :=
  { require60fps := require60fps, screenData := fun _ => 0, screenPalette := fun c => c,
    samples := fun _ => 0, inputState := fun _ id => if held id then 1 else 0 }

/-- A host joypad on which exactly the A button (PICO-8 button 4) is held. -/
def heldA (id : Nat) : Bool := id == RETRO_DEVICE_ID_JOYPAD_A

/-- The state right after a successful load on the default build with a host that
accepts only the narrow format. -/
def loadedState : State :=
  (retro_load_game defaultBuild greyRamp narrowOnlyHost false someGame bootState).2.1

/-! ## Lemmas -/

theorem buttonLoop_eq (m : Tick) (player n : Nat) (acc : (Nat → Nat → Bool) × List Call) :
    (List.range n).foldl (buttonStep m player) acc =
      (fun p b => if p = player ∧ b < n then polled m player b else acc.1 p b,
       acc.2 ++ (List.range n).flatMap (edgeCalls m acc.1 player)) := by
  induction n with
  | zero => simp
  | succ k ih =>
    rw [List.range_succ, List.foldl_append, ih]
    simp only [List.foldl_cons, List.foldl_nil, buttonStep, List.flatMap_append,
      List.flatMap_singleton, edgeCalls]
    refine Prod.ext ?_ ?_
    · funext p b
      simp only
      by_cases hp : p = player
      · by_cases hb : b = k
        · subst hp; subst hb; simp
        · by_cases hlt : b < k
          · have : b < k + 1 := by omega
            simp [hp, hb, hlt, this]
          · have : ¬ b < k + 1 := by omega
            simp [hp, hb, hlt, this]
      · simp [hp]
    · simp only [lt_self_iff_false, and_false, if_false]
      split <;> simp

theorem playerStep_eq (bld : Build) (m : Tick) (player : Nat)
    (acc : (Nat → Nat → Bool) × List Call) :
    playerStep bld m acc player =
      (fun p b => if p = player ∧ b < bld.BUTTON_COUNT then polled m player b else acc.1 p b,
       acc.2 ++ playerCalls bld m acc.1 player) := by
  simp [playerStep, buttonLoop_eq, playerCalls]

theorem edgeCalls_congr (m : Tick) (f g : Nat → Nat → Bool) (player : Nat)
    (h : ∀ b, f player b = g player b) (r8bt : Nat) :
    edgeCalls m f player r8bt = edgeCalls m g player r8bt := by
  simp [edgeCalls, h]

theorem playerCalls_congr (bld : Build) (m : Tick) (f g : Nat → Nat → Bool) (player : Nat)
    (h : ∀ b, f player b = g player b) :
    playerCalls bld m f player = playerCalls bld m g player := by
  unfold playerCalls
  congr 2
  funext b
  exact edgeCalls_congr m f g player h b

theorem playerLoop_eq (bld : Build) (m : Tick) (n : Nat)
    (acc : (Nat → Nat → Bool) × List Call) :
    (List.range n).foldl (playerStep bld m) acc =
      (fun p b => if p < n ∧ b < bld.BUTTON_COUNT then polled m p b else acc.1 p b,
       acc.2 ++ (List.range n).flatMap (playerCalls bld m acc.1)) := by
  induction n with
  | zero => simp
  | succ k ih =>
    rw [List.range_succ, List.foldl_append, ih]
    simp only [List.foldl_cons, List.foldl_nil, playerStep_eq, List.flatMap_append,
      List.flatMap_singleton]
    refine Prod.ext ?_ ?_
    · funext p b
      simp only
      by_cases hp : p = k
      · subst hp; simp
      · by_cases hlt : p < k
        · have : p < k + 1 := by omega
          simp [hp, hlt, this]
        · have : ¬ p < k + 1 := by omega
          simp [hp, hlt, this]
    · simp only [List.append_assoc, List.append_cancel_left_eq]
      apply playerCalls_congr
      intro b
      simp

theorem manageInput_eq (bld : Build) (m : Tick) (btnState : Nat → Nat → Bool) :
    manageInput bld m btnState =
      (fun p b => if p < bld.PLAYER_COUNT ∧ b < bld.BUTTON_COUNT then polled m p b
                  else btnState p b,
       inputCalls bld m btnState) := by
  simp [manageInput, playerLoop_eq, inputCalls]

theorem audio_calls (bld : Build) (m : Tick) (s : State) :
    (audio bld m s).2 =
      if bld.SOUND_ENABLED then
        [Call.renderSounds (SAMPLES_PER_FRAME bld),
         Call.audioBatch (SAMPLE_RATE bld) (SAMPLES_PER_FRAME bld)]
      else [Call.audioBatch 0 (SAMPLES_PER_FRAME bld)] := by
  unfold audio
  split <;> rfl

theorem retro_run_eq (bld : Build) (m : Tick) (s : State) (h : Loaded s) :
    ∃ s', retro_run bld m s =
        some (s', stepCalls m s ++ [videoCall s] ++ (audio bld m s).2 ++
                    inputCalls bld m s.btnState)
      ∧ s'.env.frameCounter = (s.env.frameCounter + 1) % 2 ^ 32
      ∧ s'.env.isRGB32 = s.env.isRGB32
      ∧ activeScreen s' =
          (if m.require60fps || s.env.frameCounter % 2 == 0 then
             (activeScreen s).map (Screen.draw m.screenData m.screenPalette)
           else activeScreen s)
      ∧ s'.audioBuffer = (audio bld m s).1.audioBuffer
      ∧ s'.btnState = (manageInput bld m s.btnState).1 := by
  obtain ⟨⟨fc, wide⟩, s16, s32, ab, bs⟩ := s
  unfold Loaded activeScreen at h
  simp only at h
  cases wide with
  | true =>
    simp only [if_true] at h
    obtain ⟨scr, rfl⟩ := Option.isSome_iff_exists.mp h
    by_cases hc : (m.require60fps || fc % 2 == 0) = true
    · simp [retro_run, emulationStep, present, hc, stepCalls, videoCall, activeScreen,
        manageInput_eq, audio_calls]
      unfold audio; split <;> simp
    · simp [retro_run, emulationStep, present, hc, stepCalls, videoCall, activeScreen,
        manageInput_eq, audio_calls]
      unfold audio; split <;> simp
  | false =>
    simp only [Bool.false_eq_true, if_false] at h
    obtain ⟨scr, rfl⟩ := Option.isSome_iff_exists.mp h
    by_cases hc : (m.require60fps || fc % 2 == 0) = true
    · simp [retro_run, emulationStep, present, hc, stepCalls, videoCall, activeScreen,
        manageInput_eq, audio_calls]
      unfold audio; split <;> simp
    · simp [retro_run, emulationStep, present, hc, stepCalls, videoCall, activeScreen,
        manageInput_eq, audio_calls]
      unfold audio; split <;> simp

theorem retro_run_loaded (bld : Build) (m : Tick) (s s' : State) (calls : List Call)
    (h : Loaded s) (hr : retro_run bld m s = some (s', calls)) : Loaded s' := by
  obtain ⟨t, ht, -, -, hs, -, -⟩ := retro_run_eq bld m s h
  rw [ht] at hr
  cases hr
  unfold Loaded at h ⊢
  rw [hs]
  split
  · simpa using h
  · exact h

theorem mem_inputCalls (bld : Build) (m : Tick) (btnState : Nat → Nat → Bool) (c : Call)
    (h : c ∈ inputCalls bld m btnState) :
    c = Call.inputPoll ∨ c = Call.tick ∨
      ∃ p b, c = Call.manageKey p b (polled m p b) ∧ btnState p b ≠ polled m p b := by
  simp only [inputCalls, List.mem_cons, List.mem_flatMap, List.mem_range, playerCalls,
    List.mem_append, List.mem_singleton, edgeCalls] at h
  rcases h with h | ⟨p, -, ⟨b, -, hb⟩ | hb⟩
  · exact Or.inl h
  · right; right
    refine ⟨p, b, ?_⟩
    split at hb
    · rename_i hne
      simp only [List.mem_singleton] at hb
      exact ⟨hb, by simpa using hne⟩
    · simp at hb
  · simp only [List.mem_cons, List.not_mem_nil, or_false] at hb
    exact Or.inr (Or.inl hb)

theorem filter_inputCalls (bld : Build) (m : Tick) (btnState : Nat → Nat → Bool)
    (q : Call → Bool) (h1 : q Call.inputPoll = false) (h2 : q Call.tick = false)
    (h3 : ∀ p b v, q (Call.manageKey p b v) = false) :
    (inputCalls bld m btnState).filter q = [] := by
  rw [List.filter_eq_nil_iff]
  intro c hc
  rcases mem_inputCalls bld m btnState c hc with rfl | rfl | ⟨p, b, rfl, -⟩
  · simp [h1]
  · simp [h2]
  · simp [h3]

theorem low_zero : low 0 = 0 := by simp [low]

theorem high_zero : high 0 = 0 := by simp [high]

theorem ColorMapper16_lt (bld : Build) (r g b : Nat) : ColorMapper16 bld r g b < 2 ^ 16 := by
  have hr : r &&& 0xf8 ≤ 0xf8 := Nat.and_le_right
  have hg8 : g &&& 0xf8 ≤ 0xf8 := Nat.and_le_right
  have hgc : g &&& 0xfc ≤ 0xfc := Nat.and_le_right
  have hb : b &&& 0xf8 ≤ 0xf8 := Nat.and_le_right
  unfold ColorMapper16
  split
  · refine Nat.or_lt_two_pow (Nat.or_lt_two_pow ?_ ?_) ?_
    · rw [Nat.shiftLeft_eq]; omega
    · rw [Nat.shiftLeft_eq]; omega
    · rw [Nat.shiftRight_eq_div_pow]; omega
  · refine Nat.or_lt_two_pow (Nat.or_lt_two_pow ?_ ?_) ?_
    · rw [Nat.shiftLeft_eq]; omega
    · rw [Nat.shiftLeft_eq]; omega
    · rw [Nat.shiftRight_eq_div_pow]; omega

theorem getElem?_setD {α : Type} (a : Array α) (i j : Nat) (v : α) :
    (a.setD i v)[j]? = if i = j ∧ i < a.size then some v else a[j]? := by
  unfold Array.setD
  by_cases h : i < a.size
  · rw [dif_pos h, Array.get?_set]
    by_cases hij : i = j
    · subst hij; simp [h]
    · simp [hij]
  · rw [dif_neg h]
    simp [h]

theorem getElem?_setD_same {α : Type} (a : Array α) (i : Nat) (v : α) (h : i < a.size) :
    (a.setD i v)[i]? = some v := by
  rw [getElem?_setD, if_pos ⟨rfl, h⟩]

theorem getElem?_setD_other {α : Type} (a : Array α) (i j : Nat) (v : α) (h : i ≠ j) :
    (a.setD i v)[j]? = a[j]? := by
  rw [getElem?_setD, if_neg (fun hc => h hc.1)]

theorem drawLoop_spec (data palette : Nat → Nat) (s : Screen) (n : Nat)
    (hsize : 2 * n ≤ s.buffer.size) :
    (Screen.drawLoop n data palette s).2 = 2 * n ∧
    (Screen.drawLoop n data palette s).1.bits = s.bits ∧
    (Screen.drawLoop n data palette s).1.colorTable = s.colorTable ∧
    (Screen.drawLoop n data palette s).1.writes.toList = List.range (2 * n) ∧
    (Screen.drawLoop n data palette s).1.buffer.size = s.buffer.size ∧
    (∀ i, i < n →
      (Screen.drawLoop n data palette s).1.buffer[2 * i]? =
        some (s.colorTable.get (palette (low (data i))) % 2 ^ s.bits) ∧
      (Screen.drawLoop n data palette s).1.buffer[2 * i + 1]? =
        some (s.colorTable.get (palette (high (data i))) % 2 ^ s.bits)) ∧
    (∀ j, 2 * n ≤ j → (Screen.drawLoop n data palette s).1.buffer[j]? = s.buffer[j]?) := by
  induction n with
  | zero => simp [Screen.drawLoop]
  | succ k ih =>
    obtain ⟨hp, hb, hc, hw, hs, hv, hu⟩ := ih (by omega)
    have hstep : Screen.drawLoop (k + 1) data palette s =
        Screen.drawStep data palette (Screen.drawLoop k data palette s) k := by
      simp [Screen.drawLoop, List.range_succ, List.foldl_append]
    rw [hstep]
    simp only [Screen.drawStep, Screen.store, hp, hb, hc, Array.push_toList, hw,
      Array.size_setD, hs]
    refine ⟨by omega, trivial, trivial, ?_, trivial, ?_, ?_⟩
    · have h2 : 2 * (k + 1) = (2 * k + 1) + 1 := by omega
      rw [h2, List.range_succ, List.range_succ, List.append_assoc]
    · intro i hi
      by_cases hik : i = k
      · subst hik
        constructor
        · rw [getElem?_setD_other _ _ _ _ (by omega),
            getElem?_setD_same _ _ _ (by rw [hs]; omega)]
        · rw [getElem?_setD_same _ _ _ (by rw [Array.size_setD, hs]; omega)]
      · have hlt : i < k := by omega
        obtain ⟨e1, e2⟩ := hv i hlt
        constructor
        · rw [getElem?_setD_other _ _ _ _ (by omega), getElem?_setD_other _ _ _ _ (by omega),
            e1]
        · rw [getElem?_setD_other _ _ _ _ (by omega), getElem?_setD_other _ _ _ _ (by omega),
            e2]
    · intro j hj
      rw [getElem?_setD_other _ _ _ _ (by omega), getElem?_setD_other _ _ _ _ (by omega)]
      exact hu j (by omega)

/-- C3: for a screen of 128*128 pixels whose colour table holds values of the screen's
pixel type, `Screen::draw` leaves in `buffer[2i]` and `buffer[2i+1]` the colours of the
low and high nibble of `data[i]`, looked up through the palette and the colour table,
for every `i < BYTES_PER_SCREEN`; it stores to the pixels `0, 1, ..., 128*128 - 1` in
that order, each exactly once, and to no other element; the buffer keeps its size and
the colour table is not changed; an all-zero `data` with palette entry 0 equal to `C`
gives a buffer filled with `colorTable.get(C)`. -/
theorem Screen_draw_spec (s : Screen) (data palette : Nat → Nat)
    (hsize : s.buffer.size = SCREEN_WIDTH * SCREEN_HEIGHT)
    (hfit : ∀ c, s.colorTable.get c < 2 ^ s.bits) :
    (∀ i, i < BYTES_PER_SCREEN →
      (s.draw data palette).buffer[2 * i]? = some (s.colorTable.get (palette (low (data i)))) ∧
      (s.draw data palette).buffer[2 * i + 1]? =
        some (s.colorTable.get (palette (high (data i))))) ∧
    (s.draw data palette).writes.toList = List.range (128 * 128) ∧
    (∀ j, (s.draw data palette).writes.toList.count j = if j < 128 * 128 then 1 else 0) ∧
    (s.draw data palette).buffer.size = 128 * 128 ∧
    (s.draw data palette).colorTable = s.colorTable ∧
    (∀ C, (∀ i, i < BYTES_PER_SCREEN → data i = 0) → palette 0 = C →
      (s.draw data palette).buffer = mkArray (128 * 128) (s.colorTable.get C)) := by
  have hn : 2 * BYTES_PER_SCREEN = 128 * 128 := by decide
  have hb : BYTES_PER_SCREEN = 8192 := by decide
  have hwh : SCREEN_WIDTH * SCREEN_HEIGHT = 128 * 128 := by decide
  rw [hwh] at hsize
  obtain ⟨-, -, hc, hw, hs, hv, -⟩ :=
    drawLoop_spec data palette s BYTES_PER_SCREEN (by rw [hsize, hn])
  unfold Screen.draw
  generalize Screen.drawLoop BYTES_PER_SCREEN data palette s = out at hc hw hs hv ⊢
  generalize BYTES_PER_SCREEN = n at hn hb hw hv ⊢
  have hvals : ∀ i, i < n →
      out.1.buffer[2 * i]? = some (s.colorTable.get (palette (low (data i)))) ∧
      out.1.buffer[2 * i + 1]? = some (s.colorTable.get (palette (high (data i)))) := by
    intro i hi
    obtain ⟨e1, e2⟩ := hv i hi
    exact ⟨by rw [e1, Nat.mod_eq_of_lt (hfit _)], by rw [e2, Nat.mod_eq_of_lt (hfit _)]⟩
  have hwr : out.1.writes.toList = List.range (128 * 128) := by
    rw [hw, hn]
  refine ⟨hvals, hwr, ?_, hs.trans hsize, hc, ?_⟩
  · intro j
    rw [hwr, List.count_eq_of_nodup (List.nodup_range _)]
    simp only [List.mem_range]
  · intro C hz hC
    apply Array.ext
    · rw [hs, hsize, Array.size_mkArray]
    · intro j hj1 hj2
      rw [Array.getElem_mkArray]
      rw [hs, hsize] at hj1
      have hi : j / 2 < n := by omega
      obtain ⟨e1, e2⟩ := hvals (j / 2) hi
      rw [hz _ hi, low_zero, hC] at e1
      rw [hz _ hi, high_zero, hC] at e2
      have hget : out.1.buffer[j]? = some (s.colorTable.get C) := by
        rcases Nat.mod_two_eq_zero_or_one j with h | h
        · have : j = 2 * (j / 2) := by omega
          rw [this]; exact e1
        · have : j = 2 * (j / 2) + 1 := by omega
          rw [this]; exact e2
      obtain ⟨_, hval⟩ := Array.getElem?_eq_some_iff.mp hget
      exact hval

/-- Witness of C3: the narrow screen built by `Screen16::Screen16()`, drawing a
cleared screen memory through the identity palette. -/
theorem Screen_draw_spec_witness :
    (Screen16.new defaultBuild greyRamp).buffer.size = SCREEN_WIDTH * SCREEN_HEIGHT ∧
    (∀ c, (Screen16.new defaultBuild greyRamp).colorTable.get c <
      2 ^ (Screen16.new defaultBuild greyRamp).bits) ∧
    (∀ i, i < BYTES_PER_SCREEN →
      ((Screen16.new defaultBuild greyRamp).draw (fun _ => 0) (fun c => c)).buffer[2 * i]? =
        some ((Screen16.new defaultBuild greyRamp).colorTable.get
          ((fun c => c) (low ((fun _ => 0) i)))) ∧
      ((Screen16.new defaultBuild greyRamp).draw (fun _ => 0) (fun c => c)).buffer[2 * i + 1]? =
        some ((Screen16.new defaultBuild greyRamp).colorTable.get
          ((fun c => c) (high ((fun _ => 0) i))))) ∧
    ((Screen16.new defaultBuild greyRamp).draw (fun _ => 0) (fun c => c)).writes.toList =
      List.range (128 * 128) ∧
    (∀ j, ((Screen16.new defaultBuild greyRamp).draw (fun _ => 0)
        (fun c => c)).writes.toList.count j = if j < 128 * 128 then 1 else 0) ∧
    ((Screen16.new defaultBuild greyRamp).draw (fun _ => 0) (fun c => c)).buffer.size =
      128 * 128 ∧
    ((Screen16.new defaultBuild greyRamp).draw (fun _ => 0) (fun c => c)).colorTable =
      (Screen16.new defaultBuild greyRamp).colorTable ∧
    (∀ C, (∀ i, i < BYTES_PER_SCREEN → (fun _ => 0) i = 0) → (fun c => c) 0 = C →
      ((Screen16.new defaultBuild greyRamp).draw (fun _ => 0) (fun c => c)).buffer =
        mkArray (128 * 128) ((Screen16.new defaultBuild greyRamp).colorTable.get C)) :=
  ⟨Array.size_mkArray _ _, fun _ => ColorMapper16_lt defaultBuild _ _ _,
    Screen_draw_spec (Screen16.new defaultBuild greyRamp) (fun _ => 0) (fun c => c)
      (Array.size_mkArray _ _) (fun _ => ColorMapper16_lt defaultBuild _ _ _)⟩

/-! ## Pixel-format negotiation -/

theorem flatMap_range_single {α : Type} (g : Nat → List α) (k : Nat)
    (h : ∀ i, i ≠ k → g i = []) (n : Nat) :
    (List.range n).flatMap g = if k < n then g k else [] := by
  induction n with
  | zero => simp
  | succ j ih =>
    rw [List.range_succ, List.flatMap_append, ih, List.flatMap_singleton]
    by_cases hjk : j = k
    · subst hjk; simp
    · rw [h j hjk, List.append_nil]
      by_cases hk : k < j
      · have : k < j + 1 := by omega
        simp [hk, this]
      · have : ¬ k < j + 1 := by omega
        simp [hk, this]

theorem eventsFor_append (p b : Nat) (xs ys : List Call) :
    eventsFor p b (xs ++ ys) = eventsFor p b xs ++ eventsFor p b ys := by
  simp [eventsFor, List.filterMap_append]

theorem eventsFor_edgeCalls (m : Tick) (btnState : Nat → Nat → Bool) (p b player r8bt : Nat) :
    eventsFor p b (edgeCalls m btnState player r8bt) =
      if player = p ∧ r8bt = b ∧ btnState p b ≠ polled m p b then [polled m p b] else [] := by
  unfold edgeCalls eventsFor
  by_cases hp : player = p
  · by_cases hb : r8bt = b
    · subst hp; subst hb
      by_cases hne : btnState player r8bt = polled m player r8bt
      · simp [hne]
      · simp [hne, keyEvent]
    · by_cases hne : btnState player r8bt = polled m player r8bt
      · simp [hne, hb]
      · simp [hne, keyEvent, hb]
  · by_cases hne : btnState player r8bt = polled m player r8bt
    · simp [hne, hp]
    · simp [hne, keyEvent, hp]

theorem eventsFor_playerCalls (bld : Build) (m : Tick) (btnState : Nat → Nat → Bool)
    (p b player : Nat) :
    eventsFor p b (playerCalls bld m btnState player) =
      if player = p ∧ b < bld.BUTTON_COUNT ∧ btnState p b ≠ polled m p b then
        [polled m p b]
      else [] := by
  unfold playerCalls
  rw [eventsFor_append]
  have htick : eventsFor p b [Call.tick] = [] := rfl
  rw [htick, List.append_nil]
  unfold eventsFor
  rw [List.filterMap_flatMap]
  have hfold : ∀ i, List.filterMap (keyEvent p b) (edgeCalls m btnState player i) =
      eventsFor p b (edgeCalls m btnState player i) := fun _ => rfl
  simp only [hfold]
  rw [flatMap_range_single _ b]
  · rw [eventsFor_edgeCalls]
    by_cases hlt : b < bld.BUTTON_COUNT <;> simp [hlt]
  · intro i hi
    rw [eventsFor_edgeCalls]
    simp [hi]

theorem eventsFor_inputCalls (bld : Build) (m : Tick) (btnState : Nat → Nat → Bool)
    (p b : Nat) :
    eventsFor p b (inputCalls bld m btnState) =
      if p < bld.PLAYER_COUNT ∧ b < bld.BUTTON_COUNT ∧ btnState p b ≠ polled m p b then
        [polled m p b]
      else [] := by
  unfold inputCalls
  have hcons : eventsFor p b
      (Call.inputPoll :: (List.range bld.PLAYER_COUNT).flatMap (playerCalls bld m btnState)) =
      eventsFor p b ((List.range bld.PLAYER_COUNT).flatMap (playerCalls bld m btnState)) :=
    rfl
  rw [hcons]
  unfold eventsFor
  rw [List.filterMap_flatMap]
  have hfold : ∀ i, List.filterMap (keyEvent p b) (playerCalls bld m btnState i) =
      eventsFor p b (playerCalls bld m btnState i) := fun _ => rfl
  simp only [hfold]
  rw [flatMap_range_single _ p]
  · rw [eventsFor_playerCalls]
    by_cases hlt : p < bld.PLAYER_COUNT <;> simp [hlt]
  · intro i hi
    rw [eventsFor_playerCalls]
    simp [hi]

theorem count_manageKey (p b : Nat) (v : Bool) (calls : List Call) :
    calls.count (Call.manageKey p b v) = (eventsFor p b calls).count v := by
  induction calls with
  | nil => rfl
  | cons c cs ih =>
    have hcons : eventsFor p b (c :: cs) = eventsFor p b [c] ++ eventsFor p b cs :=
      eventsFor_append p b [c] cs
    rw [hcons, List.count_append, List.count_cons, ih, Nat.add_comm]
    congr 1
    cases c with
    | manageKey p' b' v' =>
      by_cases hp : p' = p
      · by_cases hb : b' = b
        · by_cases hv : v' = v
          · simp [eventsFor, keyEvent, hp, hb, hv]
          · simp [eventsFor, keyEvent, hp, hb, hv, List.count_cons]
        · simp [eventsFor, keyEvent, hp, hb]
      · simp [eventsFor, keyEvent, hp]
    | _ => simp [eventsFor, keyEvent]

theorem mem_inputCalls_range (bld : Build) (m : Tick) (btnState : Nat → Nat → Bool)
    (p b : Nat) (v : Bool) (h : Call.manageKey p b v ∈ inputCalls bld m btnState) :
    p < bld.PLAYER_COUNT ∧ b < bld.BUTTON_COUNT ∧ btnState p b ≠ polled m p b ∧
      v = polled m p b := by
  have hc : 0 < (inputCalls bld m btnState).count (Call.manageKey p b v) :=
    List.count_pos_iff.mpr h
  rw [count_manageKey, eventsFor_inputCalls] at hc
  split at hc
  · rename_i hcond
    obtain ⟨h1, h2, h3⟩ := hcond
    refine ⟨h1, h2, h3, ?_⟩
    by_contra hv
    simp [List.count_cons, Ne.symm hv] at hc
  · simp at hc

/-- C6: one pass of the input section forwards, for each (player, button) pair in
range, `manageKey(player, button, v)` exactly when the polled value differs from the
stored one, exactly once and with `v` the polled value, and forwards nothing for any
other pair; afterwards the stored state of every pair in range is the polled
state (pairs out of range are untouched), so a second pass with the same polled state
forwards no `manageKey` at all. -/
theorem manageInput_edges (bld : Build) (m : Tick) (btnState : Nat → Nat → Bool) :
    (∀ p b, eventsFor p b (manageInput bld m btnState).2 =
      if p < bld.PLAYER_COUNT ∧ b < bld.BUTTON_COUNT ∧ btnState p b ≠ polled m p b then
        [polled m p b]
      else []) ∧
    (∀ p b v, (manageInput bld m btnState).2.count (Call.manageKey p b v) =
      if p < bld.PLAYER_COUNT ∧ b < bld.BUTTON_COUNT ∧ btnState p b ≠ polled m p b ∧
          v = polled m p b then 1
      else 0) ∧
    (∀ p b, p < bld.PLAYER_COUNT → b < bld.BUTTON_COUNT →
      (manageInput bld m btnState).1 p b = polled m p b) ∧
    (∀ p b, ¬ (p < bld.PLAYER_COUNT ∧ b < bld.BUTTON_COUNT) →
      (manageInput bld m btnState).1 p b = btnState p b) ∧
    (∀ p b v, Call.manageKey p b v ∉
      (manageInput bld m (manageInput bld m btnState).1).2) := by
  refine ⟨?_, ?_, ?_, ?_, ?_⟩
  · intro p b
    rw [manageInput_eq, eventsFor_inputCalls]
  · intro p b v
    rw [manageInput_eq, count_manageKey, eventsFor_inputCalls]
    by_cases hc : p < bld.PLAYER_COUNT ∧ b < bld.BUTTON_COUNT ∧ btnState p b ≠ polled m p b
    · obtain ⟨h1, h2, h3⟩ := hc
      by_cases hv : v = polled m p b
      · simp [h1, h2, h3, hv]
      · simp [h1, h2, h3, hv, List.count_cons, Ne.symm hv]
    · have hc' : ¬ (p < bld.PLAYER_COUNT ∧ b < bld.BUTTON_COUNT ∧
          btnState p b ≠ polled m p b ∧ v = polled m p b) := by
        rintro ⟨h1, h2, h3, -⟩
        exact hc ⟨h1, h2, h3⟩
      rw [if_neg hc, if_neg hc']
      rfl
  · intro p b hp hb
    rw [manageInput_eq]
    simp [hp, hb]
  · intro p b hn
    rw [manageInput_eq]
    simp only
    rw [if_neg hn]
  · intro p b v hmem
    rw [manageInput_eq, manageInput_eq] at hmem
    obtain ⟨h1, h2, h3, -⟩ := mem_inputCalls_range bld m _ p b v hmem
    apply h3
    simp [h1, h2]

theorem eventsFor_tickCalls (bld : Build) (m : Tick) (s : State) (p b : Nat) :
    eventsFor p b (stepCalls m s ++ [videoCall s] ++ (audio bld m s).2 ++
        inputCalls bld m s.btnState) = eventsFor p b (inputCalls bld m s.btnState) := by
  rw [eventsFor_append, eventsFor_append, eventsFor_append, audio_calls]
  have h1 : eventsFor p b (stepCalls m s) = [] := by
    unfold stepCalls
    split <;> rfl
  have h2 : eventsFor p b [videoCall s] = [] := rfl
  have h3 : eventsFor p b (if bld.SOUND_ENABLED = true then
      [Call.renderSounds (SAMPLES_PER_FRAME bld),
        Call.audioBatch (SAMPLE_RATE bld) (SAMPLES_PER_FRAME bld)]
      else [Call.audioBatch 0 (SAMPLES_PER_FRAME bld)]) = [] := by
    split <;> rfl
  rw [h1, h2, h3]
  rfl

theorem runTicks_events (bld : Build) (p b : Nat) (hp : p < bld.PLAYER_COUNT)
    (hb : b < bld.BUTTON_COUNT) (ms : List Tick) :
    ∀ s : State, Loaded s →
      ∃ s' calls, runTicks bld ms s = some (s', calls) ∧
        eventsFor p b calls = changes (s.btnState p b) (ms.map (fun m => polled m p b)) := by
  induction ms with
  | nil =>
    intro s _
    exact ⟨s, [], rfl, rfl⟩
  | cons m ms ih =>
    intro s hs
    obtain ⟨s1, h1, -, -, -, -, hbtn⟩ := retro_run_eq bld m s hs
    have hl1 : Loaded s1 := retro_run_loaded bld m s s1 _ hs h1
    obtain ⟨s2, c2, h2, he2⟩ := ih s1 hl1
    refine ⟨s2, (stepCalls m s ++ [videoCall s] ++ (audio bld m s).2 ++
      inputCalls bld m s.btnState) ++ c2, ?_, ?_⟩
    · simp only [runTicks, h1, h2]
    · have hnew : s1.btnState p b = polled m p b := by
        rw [hbtn, manageInput_eq]
        simp [hp, hb]
      rw [eventsFor_append, eventsFor_tickCalls, eventsFor_inputCalls, he2, hnew]
      simp only [List.map_cons, changes]
      by_cases hne : s.btnState p b = polled m p b
      · simp [hne]
      · have hne' : polled m p b ≠ s.btnState p b := fun h => hne h.symm
        simp [hp, hb, hne, hne']

theorem changes_alternating (l : List Bool) :
    ∀ prev : Bool, changes prev l = alternating (!prev) (changes prev l).length := by
  induction l with
  | nil => intro prev; rfl
  | cons v vs ih =>
    intro prev
    by_cases hv : v = prev
    · subst hv
      have : changes v (v :: vs) = changes v vs := by simp [changes]
      rw [this]
      exact ih v
    · have hc : changes prev (v :: vs) = v :: changes v vs := by simp [changes, hv]
      have hnot : (!prev) = v := by
        cases v <;> cases prev <;> simp at hv ⊢
      rw [hc, List.length_cons, hnot]
      show v :: changes v vs = v :: alternating (!v) (changes v vs).length
      rw [← ih v]

/-- C7: a button that is stored as released when the ticks begin receives, over any
sequence of ticks, exactly the state changes of its polled values, in order; these
alternate between press and release and start with a press; polled pressed on one
tick and released on the next, it receives one press and then one release. -/
theorem edge_events_alternate (bld : Build) (s0 : State) (ms : List Tick) (p b : Nat)
    (hl : Loaded s0) (hp : p < bld.PLAYER_COUNT) (hb : b < bld.BUTTON_COUNT)
    (h0 : s0.btnState p b = false) :
    ∃ s calls, runTicks bld ms s0 = some (s, calls) ∧
      eventsFor p b calls = changes false (ms.map (fun m => polled m p b)) ∧
      eventsFor p b calls = alternating true (eventsFor p b calls).length ∧
      (∀ m1 m2, ms = [m1, m2] → polled m1 p b = true → polled m2 p b = false →
        eventsFor p b calls = [true, false]) := by
  obtain ⟨s, calls, hrun, hev⟩ := runTicks_events bld p b hp hb ms s0 hl
  rw [h0] at hev
  refine ⟨s, calls, hrun, hev, ?_, ?_⟩
  · have := changes_alternating (ms.map (fun m => polled m p b)) false
    rw [← hev] at this
    exact this
  · intro m1 m2 hms h1 h2
    rw [hev, hms]
    simp [changes, h1, h2]

/-- Witness of C7: after a real load, the A button of player 0 is pressed on the first
tick and released on the second. -/
theorem edge_events_alternate_witness :
    Loaded loadedState ∧ 0 < defaultBuild.PLAYER_COUNT ∧ 4 < defaultBuild.BUTTON_COUNT ∧
    loadedState.btnState 0 4 = false ∧
    ∃ s calls,
      runTicks defaultBuild [quietTick false heldA, quietTick false (fun _ => false)]
        loadedState = some (s, calls) ∧
      eventsFor 0 4 calls = changes false
        ([quietTick false heldA, quietTick false (fun _ => false)].map
          (fun m => polled m 0 4)) ∧
      eventsFor 0 4 calls = alternating true (eventsFor 0 4 calls).length ∧
      (∀ m1 m2, [quietTick false heldA, quietTick false (fun _ => false)] = [m1, m2] →
        polled m1 0 4 = true → polled m2 0 4 = false →
        eventsFor 0 4 calls = [true, false]) :=
  ⟨rfl, by decide, by decide, rfl,
    edge_events_alternate defaultBuild loadedState
      [quietTick false heldA, quietTick false (fun _ => false)] 0 4 rfl (by decide)
      (by decide) rfl⟩

/-! ## Key repeat -/

theorem count_tick_inputCalls (bld : Build) (m : Tick) (btnState : Nat → Nat → Bool) :
    (inputCalls bld m btnState).count Call.tick = bld.PLAYER_COUNT := by
  have hedge : ∀ p n, ((List.range n).flatMap (edgeCalls m btnState p)).count Call.tick = 0 := by
    intro p n
    rw [List.count_eq_zero]
    intro hmem
    simp only [List.mem_flatMap, edgeCalls] at hmem
    obtain ⟨b, -, hb⟩ := hmem
    split at hb <;> simp at hb
  have hplayer : ∀ p, (playerCalls bld m btnState p).count Call.tick = 1 := by
    intro p
    unfold playerCalls
    rw [List.count_append, hedge]
    rfl
  have hloop : ∀ n, ((List.range n).flatMap (playerCalls bld m btnState)).count Call.tick = n := by
    intro n
    induction n with
    | zero => rfl
    | succ k ih =>
      rw [List.range_succ, List.flatMap_append, List.count_append, ih,
        List.flatMap_singleton, hplayer]
  unfold inputCalls
  rw [List.count_cons, hloop]
  rfl

theorem not_mem_inputCalls_manageKeyRepeat (bld : Build) (m : Tick)
    (btnState : Nat → Nat → Bool) : Call.manageKeyRepeat ∉ inputCalls bld m btnState := by
  intro h
  rcases mem_inputCalls bld m btnState _ h with h | h | ⟨p, b, h, -⟩ <;> cases h

theorem tick_repeat_counts (bld : Build) (m : Tick) (s : State) :
    (stepCalls m s ++ [videoCall s] ++ (audio bld m s).2 ++
        inputCalls bld m s.btnState).count Call.tick = bld.PLAYER_COUNT ∧
    (stepCalls m s ++ [videoCall s] ++ (audio bld m s).2 ++
        inputCalls bld m s.btnState).count Call.manageKeyRepeat =
      if m.require60fps = true ∨ s.env.frameCounter % 2 = 0 then 1 else 0 := by
  have hrep : (inputCalls bld m s.btnState).count Call.manageKeyRepeat = 0 :=
    List.count_eq_zero.mpr (not_mem_inputCalls_manageKeyRepeat bld m s.btnState)
  simp only [List.count_append, count_tick_inputCalls, hrep, audio_calls]
  unfold stepCalls videoCall
  by_cases hc : (m.require60fps || s.env.frameCounter % 2 == 0) = true
  · have hc' : m.require60fps = true ∨ s.env.frameCounter % 2 = 0 := by simpa using hc
    cases bld.SOUND_ENABLED <;> simp [hc, hc', List.count_cons]
  · have hc' : ¬ (m.require60fps = true ∨ s.env.frameCounter % 2 = 0) := by simpa using hc
    cases bld.SOUND_ENABLED <;> simp [hc, hc', List.count_cons]

/-- C8, as stated, fails: on the second tick of a 30 Hz cartridge with the A button of
player 0 held since the first tick, the button is stored pressed and polled pressed,
no edge is forwarded, `input.tick()` runs for both players, and
`input.manageKeyRepeat()` is not called. -/
theorem keyRepeat_skipped_on_held_tick :
    ∃ s1 c1 s2 c2,
      retro_run defaultBuild (quietTick false heldA) loadedState = some (s1, c1) ∧
      retro_run defaultBuild (quietTick false heldA) s1 = some (s2, c2) ∧
      s1.btnState 0 4 = true ∧ polled (quietTick false heldA) 0 4 = true ∧
      eventsFor 0 4 c2 = [] ∧ c2.count Call.tick = 2 ∧ Call.manageKeyRepeat ∉ c2 := by
  obtain ⟨s1, h1, hfc1, -, -, -, hbtn1⟩ :=
    retro_run_eq defaultBuild (quietTick false heldA) loadedState rfl
  have hl0 : Loaded loadedState := rfl
  have hl1 : Loaded s1 := retro_run_loaded _ _ _ _ _ hl0 h1
  obtain ⟨s2, h2, -⟩ := retro_run_eq defaultBuild (quietTick false heldA) s1 hl1
  have hheld : s1.btnState 0 4 = true := by
    rw [hbtn1, manageInput_eq]
    rfl
  have hfc : s1.env.frameCounter = 1 := by
    rw [hfc1]
    rfl
  refine ⟨s1, _, s2, _, h1, h2, hheld, rfl, ?_, ?_, ?_⟩
  · rw [eventsFor_tickCalls, eventsFor_inputCalls, hheld]
    rfl
  · exact (tick_repeat_counts defaultBuild (quietTick false heldA) s1).1
  · rw [← List.count_eq_zero, (tick_repeat_counts defaultBuild (quietTick false heldA) s1).2,
      hfc]
    rfl

/-- C8, amended: on every tick of a loaded game, a button whose polled value equals its
stored value gets no edge event; `input.tick()` is called once per player on every
tick, whatever the transitions and whether or not the emulation step runs;
`input.manageKeyRepeat()` is called once on the ticks on which the emulation step runs
(`require60fps()` or an even frame counter) and not at all on the others. -/
theorem repeat_update_per_tick (bld : Build) (m : Tick) (s : State) (hl : Loaded s) :
    ∃ s' calls, retro_run bld m s = some (s', calls) ∧
      (∀ p b, s.btnState p b = polled m p b → eventsFor p b calls = []) ∧
      calls.count Call.tick = bld.PLAYER_COUNT ∧
      calls.count Call.manageKeyRepeat =
        (if m.require60fps = true ∨ s.env.frameCounter % 2 = 0 then 1 else 0) := by
  obtain ⟨s', hr, -⟩ := retro_run_eq bld m s hl
  refine ⟨s', _, hr, ?_, (tick_repeat_counts bld m s).1, (tick_repeat_counts bld m s).2⟩
  intro p b heq
  rw [eventsFor_tickCalls, eventsFor_inputCalls]
  simp [heq]

/-- Witness of the amended C8: the first tick after a real load. -/
theorem repeat_update_per_tick_witness :
    Loaded loadedState ∧
    ∃ s' calls, retro_run defaultBuild (quietTick false heldA) loadedState = some (s', calls) ∧
      (∀ p b, loadedState.btnState p b = polled (quietTick false heldA) p b →
        eventsFor p b calls = []) ∧
      calls.count Call.tick = defaultBuild.PLAYER_COUNT ∧
      calls.count Call.manageKeyRepeat =
        (if (quietTick false heldA).require60fps = true ∨
            loadedState.env.frameCounter % 2 = 0 then 1 else 0) :=
  ⟨rfl, repeat_update_per_tick defaultBuild (quietTick false heldA) loadedState rfl⟩

/-! ## Audio -/

theorem filter_audio_tick (bld : Build) (m : Tick) (s : State) :
    (stepCalls m s ++ [videoCall s] ++ (audio bld m s).2 ++
        inputCalls bld m s.btnState).filter isAudioCall = (audio bld m s).2 := by
  simp only [List.filter_append,
    filter_inputCalls bld m s.btnState isAudioCall rfl rfl (fun _ _ _ => rfl), audio_calls]
  unfold stepCalls videoCall
  by_cases hc : (m.require60fps || s.env.frameCounter % 2 == 0) = true <;>
    cases bld.SOUND_ENABLED <;>
    simp [hc, isAudioCall, List.filter_cons]

theorem fill_spec (f : Nat → Int) (buf : Array Int) (n : Nat) :
    (fill f buf n).size = buf.size ∧
    ∀ j, (fill f buf n)[j]? = if j < n ∧ j < buf.size then some (f j) else buf[j]? := by
  induction n with
  | zero => simp [fill]
  | succ k ih =>
    obtain ⟨hs, hv⟩ := ih
    have hstep : fill f buf (k + 1) = (fill f buf k).setD k (f k) := by
      simp [fill, List.range_succ, List.foldl_append]
    rw [hstep, Array.size_setD]
    refine ⟨hs, ?_⟩
    intro j
    rw [getElem?_setD, hs, hv]
    by_cases hjk : k = j
    · subst hjk
      by_cases hlt : k < buf.size
      · simp [hlt]
      · simp [hlt]
    · by_cases hlt : j < k
      · have : j < k + 1 := by omega
        simp [hjk, hlt, this]
      · have : ¬ j < k + 1 := by omega
        simp [hjk, hlt, this]

theorem getD_of_getElem? (a : Array Int) (i : Nat) (x : Int) (h : a[i]? = some x) :
    a.getD i 0 = x := by
  rw [Array.getD_eq_get?, h]
  rfl

theorem duplicateLoop_spec (bld : Build) (buf : Array Int) (n : Nat)
    (hn : n ≤ SAMPLE_RATE bld) (hsize : SAMPLE_RATE bld + 2 * n ≤ buf.size) :
    ((List.range n).foldl (duplicateStep bld) buf).size = buf.size ∧
    (∀ i, i < n →
      ((List.range n).foldl (duplicateStep bld) buf)[SAMPLE_RATE bld + 2 * i]? = buf[i]? ∧
      ((List.range n).foldl (duplicateStep bld) buf)[SAMPLE_RATE bld + (2 * i + 1)]? =
        buf[i]?) ∧
    (∀ j, j < SAMPLE_RATE bld →
      ((List.range n).foldl (duplicateStep bld) buf)[j]? = buf[j]?) := by
  induction n with
  | zero => simp
  | succ k ih =>
    obtain ⟨hs, hv, hu⟩ := ih (by omega) (by omega)
    rw [List.range_succ, List.foldl_append]
    simp only [List.foldl_cons, List.foldl_nil, duplicateStep]
    generalize (List.range k).foldl (duplicateStep bld) buf = cur at hs hv hu ⊢
    have hk : k < SAMPLE_RATE bld := by omega
    have hkb : k < buf.size := by omega
    have hread : cur[k]? = some buf[k] := by
      rw [hu k hk, Array.getElem?_eq_getElem hkb]
    have hread1 : (cur.setD (SAMPLE_RATE bld + 2 * k) (cur.getD k 0))[k]? = some buf[k] := by
      rw [getElem?_setD_other _ _ _ _ (by omega), hread]
    rw [getD_of_getElem? _ _ _ hread1, getD_of_getElem? _ _ _ hread]
    refine ⟨by rw [Array.size_setD, Array.size_setD, hs], ?_, ?_⟩
    · intro i hi
      by_cases hik : i = k
      · subst hik
        constructor
        · rw [getElem?_setD_other _ _ _ _ (by omega),
            getElem?_setD_same _ _ _ (by rw [hs]; omega), Array.getElem?_eq_getElem hkb]
        · rw [getElem?_setD_same _ _ _ (by rw [Array.size_setD, hs]; omega),
            Array.getElem?_eq_getElem hkb]
      · have hlt : i < k := by omega
        obtain ⟨e1, e2⟩ := hv i hlt
        constructor
        · rw [getElem?_setD_other _ _ _ _ (by omega), getElem?_setD_other _ _ _ _ (by omega),
            e1]
        · rw [getElem?_setD_other _ _ _ _ (by omega), getElem?_setD_other _ _ _ _ (by omega),
            e2]
    · intro j hj
      rw [getElem?_setD_other _ _ _ _ (by omega), getElem?_setD_other _ _ _ _ (by omega)]
      exact hu j hj

theorem audio_size (bld : Build) (m : Tick) (s : State)
    (hinit : s.audioBuffer.size = SAMPLE_RATE bld * 2) :
    (audio bld m s).1.audioBuffer.size = SAMPLE_RATE bld * 2 := by
  unfold audio
  split
  · simp only
    have h1 := (fill_spec m.samples s.audioBuffer (SAMPLES_PER_FRAME bld)).1
    have h2 := (duplicateLoop_spec bld
      (renderSounds m.samples s.audioBuffer (SAMPLES_PER_FRAME bld)) (SAMPLES_PER_FRAME bld)
      (Nat.div_le_self _ _) (by
        unfold renderSounds
        rw [h1, hinit]
        unfold SAMPLES_PER_FRAME
        omega)).1
    rw [h2]
    unfold renderSounds
    rw [h1, hinit]
  · simp only
    rw [(fill_spec _ _ _).1, hinit]

theorem length_delivered (s : State) (offset frames : Nat)
    (h : offset + 2 * frames ≤ s.audioBuffer.size) :
    (delivered s offset frames).length = 2 * frames := by
  unfold delivered SOUND_CHANNELS
  rw [Array.length_toList, Array.size_extract]
  omega

/-- C9: every tick of a loaded game (audio buffer as allocated by `retro_init`) makes
exactly one `audioBatch` call, and its frame count is `SAMPLE_RATE / 60` whether
`SOUND_ENABLED` is set or not (735 in the 44100 Hz build), for which the host reads
`2 * (SAMPLE_RATE / 60)` interleaved samples out of the buffer; with sound enabled the
one `renderSounds` call asks for `SAMPLE_RATE / 60` samples, and with sound disabled
there is none. -/
theorem audio_frame_length (bld : Build) (m : Tick) (s : State) (hl : Loaded s)
    (hinit : s.audioBuffer.size = SAMPLE_RATE bld * 2) :
    ∃ s' calls, retro_run bld m s = some (s', calls) ∧
      calls.filterMap batchFrames = [SAMPLE_RATE bld / 60] ∧
      calls.filterMap renderCount =
        (if bld.SOUND_ENABLED then [SAMPLE_RATE bld / 60] else []) ∧
      calls.filter isAudioCall =
        (if bld.SOUND_ENABLED then
          [Call.renderSounds (SAMPLES_PER_FRAME bld),
           Call.audioBatch (SAMPLE_RATE bld) (SAMPLES_PER_FRAME bld)]
         else [Call.audioBatch 0 (SAMPLES_PER_FRAME bld)]) ∧
      SAMPLES_PER_FRAME bld = SAMPLE_RATE bld / 60 ∧
      (bld.SF2000 = false → SAMPLE_RATE bld / 60 = 735) ∧
      (∀ offset frames, Call.audioBatch offset frames ∈ calls →
        (delivered s' offset frames).length = 2 * (SAMPLE_RATE bld / 60)) := by
  obtain ⟨s', hr, -, -, -, hbuf, -⟩ := retro_run_eq bld m s hl
  have hsz : s'.audioBuffer.size = SAMPLE_RATE bld * 2 := by
    rw [hbuf]
    exact audio_size bld m s hinit
  have hfilter := (filter_audio_tick bld m s).trans (audio_calls bld m s)
  have hb : ∀ l : List Call, l.filterMap batchFrames =
      (l.filter isAudioCall).filterMap batchFrames := by
    intro l
    induction l with
    | nil => rfl
    | cons c cs ih => cases c <;> simp [List.filter_cons, isAudioCall, batchFrames, ih]
  have hc : ∀ l : List Call, l.filterMap renderCount =
      (l.filter isAudioCall).filterMap renderCount := by
    intro l
    induction l with
    | nil => rfl
    | cons c cs ih => cases c <;> simp [List.filter_cons, isAudioCall, renderCount, ih]
  refine ⟨s', _, hr, ?_, ?_, hfilter, rfl, ?_, ?_⟩
  · rw [hb, hfilter]
    cases bld.SOUND_ENABLED <;> simp [batchFrames, SAMPLES_PER_FRAME]
  · rw [hc, hfilter]
    cases bld.SOUND_ENABLED <;> simp [renderCount, SAMPLES_PER_FRAME]
  · intro hsf
    simp [SAMPLE_RATE, hsf]
  · intro offset frames hmem
    have hmem' : Call.audioBatch offset frames ∈
        (stepCalls m s ++ [videoCall s] ++ (audio bld m s).2 ++
          inputCalls bld m s.btnState).filter isAudioCall :=
      List.mem_filter.mpr ⟨hmem, rfl⟩
    rw [hfilter] at hmem'
    cases hse : bld.SOUND_ENABLED
    · simp [hse, SAMPLES_PER_FRAME] at hmem'
      obtain ⟨ho, hf⟩ := hmem'
      rw [length_delivered _ _ _ (by rw [hsz, ho, hf]; omega), hf]
    · simp [hse, SAMPLES_PER_FRAME] at hmem'
      obtain ⟨ho, hf⟩ := hmem'
      rw [length_delivered _ _ _ (by rw [hsz, ho, hf]; omega), hf]

/-- Witness of C9: the first tick after `retro_init` and a real load on the default
build. -/
theorem audio_frame_length_witness :
    Loaded loadedState ∧ loadedState.audioBuffer.size = SAMPLE_RATE defaultBuild * 2 ∧
    ∃ s' calls, retro_run defaultBuild (quietTick false heldA) loadedState = some (s', calls) ∧
      calls.filterMap batchFrames = [SAMPLE_RATE defaultBuild / 60] :=
  ⟨rfl, Array.size_mkArray _ _,
    (audio_frame_length defaultBuild (quietTick false heldA) loadedState rfl
      (Array.size_mkArray _ _)).elim
      fun s' h => h.elim fun calls hc => ⟨s', calls, hc.1, hc.2.1⟩⟩

/-- C10: with sound enabled, after a tick of a loaded game on which the synthesizer
rendered the mono samples `m.samples`, the buffer handed to `audioBatch` (`audioBuffer
+ SAMPLE_RATE`, `SAMPLES_PER_FRAME` frames) holds every sample twice, in `out[2i]`
and in `out[2i+1]`; the host therefore reads the interleaving of the mono sequence with
itself; the mono samples in `audioBuffer[0 .. SAMPLES_PER_FRAME)` are still the
rendered ones when the loop has finished. -/
theorem audio_duplicates_channels (bld : Build) (m : Tick) (s : State) (hl : Loaded s)
    (hinit : s.audioBuffer.size = SAMPLE_RATE bld * 2)
    (hsound : bld.SOUND_ENABLED = true) :
    ∃ s' calls, retro_run bld m s = some (s', calls) ∧
      calls.filter isAudioCall =
        [Call.renderSounds (SAMPLES_PER_FRAME bld),
         Call.audioBatch (SAMPLE_RATE bld) (SAMPLES_PER_FRAME bld)] ∧
      (∀ i, i < SAMPLES_PER_FRAME bld →
        s'.audioBuffer[SAMPLE_RATE bld + 2 * i]? = some (m.samples i) ∧
        s'.audioBuffer[SAMPLE_RATE bld + (2 * i + 1)]? = some (m.samples i) ∧
        s'.audioBuffer[i]? = some (m.samples i)) ∧
      delivered s' (SAMPLE_RATE bld) (SAMPLES_PER_FRAME bld) =
        (List.range (2 * SAMPLES_PER_FRAME bld)).map (fun j => m.samples (j / 2)) := by
  obtain ⟨s', hr, -, -, -, hbuf, -⟩ := retro_run_eq bld m s hl
  have hsz : s'.audioBuffer.size = SAMPLE_RATE bld * 2 := by
    rw [hbuf]
    exact audio_size bld m s hinit
  have hfilter := (filter_audio_tick bld m s).trans (audio_calls bld m s)
  rw [if_pos hsound] at hfilter
  have hspf : SAMPLES_PER_FRAME bld = SAMPLE_RATE bld / 60 := rfl
  obtain ⟨hrs, hrv⟩ := fill_spec m.samples s.audioBuffer (SAMPLES_PER_FRAME bld)
  obtain ⟨-, hv, hu⟩ := duplicateLoop_spec bld
    (renderSounds m.samples s.audioBuffer (SAMPLES_PER_FRAME bld)) (SAMPLES_PER_FRAME bld)
    (Nat.div_le_self _ _) (by
      unfold renderSounds
      rw [hrs, hinit, hspf]
      omega)
  have hbuf' : s'.audioBuffer = (List.range (SAMPLES_PER_FRAME bld)).foldl (duplicateStep bld)
      (renderSounds m.samples s.audioBuffer (SAMPLES_PER_FRAME bld)) := by
    rw [hbuf]
    simp [audio, hsound]
  have hrender : ∀ i, i < SAMPLES_PER_FRAME bld →
      (renderSounds m.samples s.audioBuffer (SAMPLES_PER_FRAME bld))[i]? =
        some (m.samples i) := by
    intro i hi
    unfold renderSounds
    rw [hrv, if_pos ⟨hi, by rw [hinit]; omega⟩]
  have hpoint : ∀ i, i < SAMPLES_PER_FRAME bld →
      s'.audioBuffer[SAMPLE_RATE bld + 2 * i]? = some (m.samples i) ∧
      s'.audioBuffer[SAMPLE_RATE bld + (2 * i + 1)]? = some (m.samples i) ∧
      s'.audioBuffer[i]? = some (m.samples i) := by
    intro i hi
    obtain ⟨e1, e2⟩ := hv i hi
    rw [hbuf']
    exact ⟨e1.trans (hrender i hi), e2.trans (hrender i hi),
      (hu i (by omega)).trans (hrender i hi)⟩
  refine ⟨s', _, hr, hfilter, hpoint, ?_⟩
  unfold delivered SOUND_CHANNELS
  apply List.ext_getElem?
  intro j
  rw [← Array.getElem?_eq_getElem?_toList, Array.getElem?_extract, hsz, List.getElem?_map]
  by_cases hj : j < 2 * SAMPLES_PER_FRAME bld
  · have hcond : j < (SAMPLE_RATE bld + 2 * SAMPLES_PER_FRAME bld) ⊓ (SAMPLE_RATE bld * 2) -
        SAMPLE_RATE bld := by
      rw [hspf] at hj ⊢
      omega
    rw [if_pos hcond, List.getElem?_range hj]
    have hi : j / 2 < SAMPLES_PER_FRAME bld := by omega
    obtain ⟨e1, e2, -⟩ := hpoint (j / 2) hi
    rcases Nat.mod_two_eq_zero_or_one j with h | h
    · have hj2 : j = 2 * (j / 2) := by omega
      rw [hj2, e1]
      simp
    · have hj2 : SAMPLE_RATE bld + j = SAMPLE_RATE bld + (2 * (j / 2) + 1) := by omega
      rw [hj2, e2]
      rfl
  · have hcond : ¬ j < (SAMPLE_RATE bld + 2 * SAMPLES_PER_FRAME bld) ⊓ (SAMPLE_RATE bld * 2) -
        SAMPLE_RATE bld := by
      rw [hspf] at hj ⊢
      omega
    rw [if_neg hcond, List.getElem?_eq_none (by rw [List.length_range]; omega)]
    rfl

/-- Witness of C10: the first tick after `retro_init` and a real load on the default
build. -/
theorem audio_duplicates_channels_witness :
    Loaded loadedState ∧ loadedState.audioBuffer.size = SAMPLE_RATE defaultBuild * 2 ∧
    defaultBuild.SOUND_ENABLED = true ∧
    ∃ s' calls, retro_run defaultBuild (quietTick false heldA) loadedState = some (s', calls) ∧
      delivered s' (SAMPLE_RATE defaultBuild) (SAMPLES_PER_FRAME defaultBuild) =
        (List.range (2 * SAMPLES_PER_FRAME defaultBuild)).map
          (fun j => (quietTick false heldA).samples (j / 2)) :=
  ⟨rfl, Array.size_mkArray _ _, rfl,
    (audio_duplicates_channels defaultBuild (quietTick false heldA) loadedState rfl
      (Array.size_mkArray _ _) rfl).elim
      fun s' h => h.elim fun calls hc => ⟨s', calls, hc.1, hc.2.2.2⟩⟩

/-! ## Pixel mappers -/

theorem or_eq_add_of_lt (i a b : Nat) (h : b < 2 ^ i) : (2 ^ i * a) ||| b = 2 ^ i * a + b :=
  (Nat.mul_add_lt_is_or h a).symm

set_option maxRecDepth 100000 in
theorem and_f8 : ∀ r, r < 256 → r &&& 0xf8 = r / 8 * 8 := by decide

set_option maxRecDepth 100000 in
theorem and_fc : ∀ r, r < 256 → r &&& 0xfc = r / 4 * 4 := by decide

theorem ColorMapper32_eq (r g b : Nat) (hr : r < 256) (hg : g < 256) (hb : b < 256) :
    ColorMapper32 r g b = 0xFF * 2 ^ 24 + r * 2 ^ 16 + g * 2 ^ 8 + b := by
  unfold ColorMapper32
  rw [Nat.shiftLeft_eq, Nat.shiftLeft_eq]
  have e1 : (0xff000000 : Nat) ||| r * 2 ^ 16 = 2 ^ 16 * (0xFF * 2 ^ 8 + r) := by
    have h := or_eq_add_of_lt 24 0xFF (r * 2 ^ 16) (by omega)
    have h0 : (0xff000000 : Nat) = 2 ^ 24 * 0xFF := by norm_num
    rw [h0, h]
    ring
  have e2 : 2 ^ 16 * (0xFF * 2 ^ 8 + r) ||| g * 2 ^ 8 =
      2 ^ 8 * ((0xFF * 2 ^ 8 + r) * 2 ^ 8 + g) := by
    rw [or_eq_add_of_lt 16 _ (g * 2 ^ 8) (by omega)]
    ring
  rw [e1, e2, or_eq_add_of_lt 8 _ b (by omega)]
  ring

theorem ColorMapper16_eq (bld : Build) (r g b : Nat) (hr : r < 256) (hg : g < 256)
    (hb : b < 256) (h565 : bld.ABGR1555 = false) :
    ColorMapper16 bld r g b = r / 8 * 2 ^ 11 + g / 4 * 2 ^ 5 + b / 8 := by
  unfold ColorMapper16
  rw [h565]
  simp only [Bool.false_eq_true, if_false]
  rw [Nat.shiftLeft_eq, Nat.shiftLeft_eq, Nat.shiftRight_eq_div_pow, and_f8 r hr, and_fc g hg,
    and_f8 b hb]
  have e1 : r / 8 * 8 * 2 ^ 8 ||| g / 4 * 4 * 2 ^ 3 = 2 ^ 5 * (r / 8 * 2 ^ 6 + g / 4) := by
    have h0 : r / 8 * 8 * 2 ^ 8 = 2 ^ 11 * (r / 8) := by ring
    rw [h0, or_eq_add_of_lt 11 _ (g / 4 * 4 * 2 ^ 3) (by omega)]
    ring
  rw [e1, or_eq_add_of_lt 5 _ (b / 8 * 8 / 2 ^ 3) (by omega)]
  have : b / 8 * 8 / 2 ^ 3 = b / 8 := by omega
  rw [this]
  ring

/-- C11: for 8-bit `r`, `g`, `b`, `ColorMapper32` returns the value below `2^32` whose
bytes, from the most significant, are `0xFF`, `r`, `g`, `b`, so each channel is
recovered exactly; in the RGB565 build `ColorMapper16` returns a value below `2^16`
whose bits 15..11 are `r >> 3`, bits 10..5 are `g >> 2` and bits 4..0 are `b >> 3`,
and a store of it through the `uint16_t*` of the narrow screen keeps the value. -/
theorem ColorMapper_layout (bld : Build) (ramp : Nat → Rgb) (r g b : Nat)
    (hr : r < 256) (hg : g < 256) (hb : b < 256) :
    ColorMapper32 r g b = 0xFF * 2 ^ 24 + r * 2 ^ 16 + g * 2 ^ 8 + b ∧
    ColorMapper32 r g b < 2 ^ 32 ∧
    ColorMapper32 r g b >>> 24 = 0xFF ∧
    (ColorMapper32 r g b >>> 16) % 256 = r ∧
    (ColorMapper32 r g b >>> 8) % 256 = g ∧
    ColorMapper32 r g b % 256 = b ∧
    (bld.ABGR1555 = false →
      ColorMapper16 bld r g b < 2 ^ 16 ∧
      ColorMapper16 bld r g b >>> 11 = r >>> 3 ∧
      (ColorMapper16 bld r g b >>> 5) % 2 ^ 6 = g >>> 2 ∧
      ColorMapper16 bld r g b % 2 ^ 5 = b >>> 3 ∧
      ColorMapper16 bld r g b % 2 ^ (Screen16.new bld ramp).bits = ColorMapper16 bld r g b ∧
      ∀ p, p < SCREEN_WIDTH * SCREEN_HEIGHT →
        ((Screen16.new bld ramp).store p (ColorMapper16 bld r g b)).buffer[p]? =
          some (ColorMapper16 bld r g b)) := by
  have h32 := ColorMapper32_eq r g b hr hg hb
  refine ⟨h32, ?_, ?_, ?_, ?_, ?_, ?_⟩
  · rw [h32]; omega
  · rw [h32, Nat.shiftRight_eq_div_pow]; omega
  · rw [h32, Nat.shiftRight_eq_div_pow]; omega
  · rw [h32, Nat.shiftRight_eq_div_pow]; omega
  · rw [h32]; omega
  · intro h565
    have h16 := ColorMapper16_eq bld r g b hr hg hb h565
    have hlt : ColorMapper16 bld r g b < 2 ^ 16 := ColorMapper16_lt bld r g b
    have hmod : ColorMapper16 bld r g b % 2 ^ (Screen16.new bld ramp).bits =
        ColorMapper16 bld r g b := Nat.mod_eq_of_lt hlt
    refine ⟨hlt, ?_, ?_, ?_, hmod, ?_⟩
    · rw [h16, Nat.shiftRight_eq_div_pow, Nat.shiftRight_eq_div_pow]; omega
    · rw [h16, Nat.shiftRight_eq_div_pow, Nat.shiftRight_eq_div_pow]; omega
    · rw [h16, Nat.shiftRight_eq_div_pow]; omega
    · intro p hp
      unfold Screen.store
      simp only
      rw [hmod]
      exact getElem?_setD_same _ _ _ (by
        show p < (mkArray (SCREEN_WIDTH * SCREEN_HEIGHT) 0).size
        rw [Array.size_mkArray]; exact hp)

/-- Witness of C11: the colour `(0x12, 0x34, 0x56)` on the default build, which is an
RGB565 build. -/
theorem ColorMapper_layout_witness :
    0x12 < 256 ∧ 0x34 < 256 ∧ 0x56 < 256 ∧
    ColorMapper32 0x12 0x34 0x56 = 0xFF * 2 ^ 24 + 0x12 * 2 ^ 16 + 0x34 * 2 ^ 8 + 0x56 ∧
    ColorMapper32 0x12 0x34 0x56 < 2 ^ 32 ∧
    ColorMapper16 defaultBuild 0x12 0x34 0x56 >>> 11 = 0x12 >>> 3 :=
  ⟨by decide, by decide, by decide,
    (ColorMapper_layout defaultBuild greyRamp 0x12 0x34 0x56 (by decide) (by decide)
      (by decide)).1,
    (ColorMapper_layout defaultBuild greyRamp 0x12 0x34 0x56 (by decide) (by decide)
      (by decide)).2.1,
    ((ColorMapper_layout defaultBuild greyRamp 0x12 0x34 0x56 (by decide) (by decide)
      (by decide)).2.2.2.2.2.2 rfl).2.1⟩

/-! ## Audio buffer bounds -/

theorem fillLogged_spec (f : Nat → Int) (a : AudioMem) (n : Nat) :
    (fillLogged f a n).buffer = fill f a.buffer n ∧
    (fillLogged f a n).accessed.toList = a.accessed.toList ++ List.range n := by
  induction n with
  | zero => simp [fillLogged, fill]
  | succ k ih =>
    obtain ⟨hb, hl⟩ := ih
    have hstep : fillLogged f a (k + 1) = (fillLogged f a k).store k (f k) := by
      simp [fillLogged, List.range_succ, List.foldl_append]
    have hfill : fill f a.buffer (k + 1) = (fill f a.buffer k).setD k (f k) := by
      simp [fill, List.range_succ, List.foldl_append]
    rw [hstep, hfill]
    simp only [AudioMem.store, hb, Array.push_toList, hl, List.range_succ, List.append_assoc,
      and_self]

theorem duplicateLogged_spec (bld : Build) (a : AudioMem) (n : Nat) :
    ((List.range n).foldl (duplicateStepLogged bld) a).buffer =
      (List.range n).foldl (duplicateStep bld) a.buffer ∧
    ((List.range n).foldl (duplicateStepLogged bld) a).accessed.toList =
      a.accessed.toList ++ (List.range n).flatMap
        (fun i => [i, SAMPLE_RATE bld + 2 * i, i, SAMPLE_RATE bld + (2 * i + 1)]) := by
  induction n with
  | zero => simp
  | succ k ih =>
    obtain ⟨hb, hl⟩ := ih
    rw [List.range_succ, List.foldl_append, List.foldl_append]
    simp only [List.foldl_cons, List.foldl_nil, duplicateStepLogged, duplicateStep,
      AudioMem.load, AudioMem.store, hb, Array.push_toList, hl, List.flatMap_append,
      List.flatMap_singleton, List.append_assoc, List.cons_append, List.nil_append,
      List.singleton_append, and_self]

/-- C12: in every build (44100 Hz or, under `SF2000`, 11025 Hz) the logged audio
section computes the same buffer as `audio`, and every index it loads from or stores to
is below `2 * SAMPLE_RATE`, the size of the array allocated by `retro_init`; so is the
window the host reads through `audioBatch`.  With sound enabled the accesses are the
mono indices below `SAMPLES_PER_FRAME` and the stereo indices in
`[SAMPLE_RATE, SAMPLE_RATE + 2 * SAMPLES_PER_FRAME)`, and no mono index is a stereo
index; with sound disabled the accesses are exactly `0, ..., 2 * SAMPLES_PER_FRAME - 1`,
all inside the array. -/
theorem audio_indices_in_bounds (bld : Build) (m : Tick) (s : State) :
    (SAMPLE_RATE bld = 44100 ∨ SAMPLE_RATE bld = 11025) ∧
    (retro_init bld s).audioBuffer.size = 2 * SAMPLE_RATE bld ∧
    (audioLogged bld m s.audioBuffer).buffer = (audio bld m s).1.audioBuffer ∧
    (∀ i, i ∈ (audioLogged bld m s.audioBuffer).accessed.toList → i < 2 * SAMPLE_RATE bld) ∧
    (∀ offset frames, Call.audioBatch offset frames ∈ (audio bld m s).2 →
      offset + SOUND_CHANNELS * frames ≤ 2 * SAMPLE_RATE bld) ∧
    (bld.SOUND_ENABLED = true →
      (audioLogged bld m s.audioBuffer).accessed.toList =
        List.range (SAMPLES_PER_FRAME bld) ++
          (List.range (SAMPLES_PER_FRAME bld)).flatMap
            (fun i => [i, SAMPLE_RATE bld + 2 * i, i, SAMPLE_RATE bld + (2 * i + 1)]) ∧
      ∀ i, i ∈ (audioLogged bld m s.audioBuffer).accessed.toList →
        i < SAMPLES_PER_FRAME bld ∨
        (SAMPLE_RATE bld ≤ i ∧ i < SAMPLE_RATE bld + 2 * SAMPLES_PER_FRAME bld)) ∧
    (∀ i j, i < SAMPLES_PER_FRAME bld → SAMPLE_RATE bld ≤ j →
      j < SAMPLE_RATE bld + 2 * SAMPLES_PER_FRAME bld → i ≠ j) ∧
    SAMPLE_RATE bld + 2 * SAMPLES_PER_FRAME bld ≤ 2 * SAMPLE_RATE bld ∧
    (bld.SOUND_ENABLED = false →
      (audioLogged bld m s.audioBuffer).accessed.toList =
        List.range (2 * SAMPLES_PER_FRAME bld) ∧
      2 * SAMPLES_PER_FRAME bld ≤ 2 * SAMPLE_RATE bld) := by
  have hspf : SAMPLES_PER_FRAME bld = SAMPLE_RATE bld / 60 := rfl
  have hrate : SAMPLE_RATE bld = 44100 ∨ SAMPLE_RATE bld = 11025 := by
    unfold SAMPLE_RATE
    cases bld.SF2000 <;> simp
  have hon : bld.SOUND_ENABLED = true →
      (audioLogged bld m s.audioBuffer).accessed.toList =
        List.range (SAMPLES_PER_FRAME bld) ++
          (List.range (SAMPLES_PER_FRAME bld)).flatMap
            (fun i => [i, SAMPLE_RATE bld + 2 * i, i, SAMPLE_RATE bld + (2 * i + 1)]) := by
    intro h
    unfold audioLogged
    rw [if_pos h]
    simp only
    rw [(duplicateLogged_spec bld _ _).2, (fillLogged_spec _ _ _).2]
    rfl
  have hoff : bld.SOUND_ENABLED = false →
      (audioLogged bld m s.audioBuffer).accessed.toList =
        List.range (2 * SAMPLES_PER_FRAME bld) := by
    intro h
    unfold audioLogged
    rw [if_neg (by simp [h])]
    rw [(fillLogged_spec _ _ _).2]
    rfl
  have hclass : bld.SOUND_ENABLED = true →
      ∀ i, i ∈ (audioLogged bld m s.audioBuffer).accessed.toList →
        i < SAMPLES_PER_FRAME bld ∨
        (SAMPLE_RATE bld ≤ i ∧ i < SAMPLE_RATE bld + 2 * SAMPLES_PER_FRAME bld) := by
    intro h i hi
    rw [hon h] at hi
    simp only [List.mem_append, List.mem_range, List.mem_flatMap, List.mem_cons,
      List.mem_singleton, List.not_mem_nil, or_false] at hi
    rcases hi with hi | ⟨k, hk, hik | hik | hik | hik⟩
    · exact Or.inl hi
    · exact Or.inl (by omega)
    · exact Or.inr (by omega)
    · exact Or.inl (by omega)
    · exact Or.inr (by omega)
  refine ⟨hrate, ?_, ?_, ?_, ?_, fun h => ⟨hon h, hclass h⟩, ?_, ?_, fun h => ⟨hoff h, ?_⟩⟩
  · unfold retro_init
    simp only [Array.size_mkArray]
    omega
  · unfold audioLogged audio
    cases h : bld.SOUND_ENABLED
    · simp only [Bool.false_eq_true, if_false]
      exact (fillLogged_spec _ _ _).1
    · simp only [if_true]
      rw [(duplicateLogged_spec bld _ _).1, (fillLogged_spec _ _ _).1]
      rfl
  · intro i hi
    cases h : bld.SOUND_ENABLED
    · rw [hoff h, List.mem_range] at hi
      omega
    · rcases hclass h i hi with h1 | h1 <;> omega
  · intro offset frames hmem
    rw [audio_calls] at hmem
    unfold SOUND_CHANNELS
    cases h : bld.SOUND_ENABLED
    · simp [h] at hmem
      obtain ⟨ho, hf⟩ := hmem
      omega
    · simp [h] at hmem
      obtain ⟨ho, hf⟩ := hmem
      omega
  · intro i j hi hj _
    omega
  · omega
  · omega

/-! ## Pause key -/

theorem handleKeyboardEvent_paused (bld : Build) (first last : Nat) (isMusicEnabled : Bool)
    (v : GameView) (event : KeyboardEvent) :
    (v.handleKeyboardEvent bld first last isMusicEnabled event).1._paused = v._paused := by
  obtain ⟨keydown, sym⟩ := event
  cases sym <;> cases keydown <;> cases hp : v._paused <;>
    simp [GameView.handleKeyboardEvent, GameView.pause, GameView.resume, hp]
  all_goals split <;> simp [hp]

/-- C13: a `KEY_PAUSE` event leaves `_paused` as it was, whatever it was: on key-down
a paused view calls `pause()` and a running view calls `resume()`, on key-up nothing is
called; so after any sequence of keyboard events, pause keys or others, `_paused` has
its initial value, and a view that starts not paused, as the constructor leaves it, is
never paused by the keyboard. -/
theorem pause_key_keeps_paused (bld : Build) (first last : Nat) (isMusicEnabled : Bool)
    (v : GameView) (keydown : Bool) :
    (v.handleKeyboardEvent bld first last isMusicEnabled
      { keydown := keydown, sym := Key.KEY_PAUSE }).1._paused = v._paused ∧
    v.handleKeyboardEvent bld first last isMusicEnabled
        { keydown := true, sym := Key.KEY_PAUSE } =
      (if v._paused then v.pause bld else v.resume bld) ∧
    v.handleKeyboardEvent bld first last isMusicEnabled
        { keydown := false, sym := Key.KEY_PAUSE } = (v, []) ∧
    (v.pause bld).1._paused = true ∧ (v.resume bld).1._paused = false ∧
    (∀ es : List (Bool × KeyboardEvent),
      (GameView.handleKeyboardEvents bld first last es v).1._paused = v._paused) ∧
    (∀ (scaler : Nat) (es : List (Bool × KeyboardEvent)),
      (GameView.handleKeyboardEvents bld first last es (GameView.new scaler)).1._paused =
        false) := by
  have hseq : ∀ (es : List (Bool × KeyboardEvent)) (w : GameView),
      (GameView.handleKeyboardEvents bld first last es w).1._paused = w._paused := by
    intro es
    induction es with
    | nil => intro w; rfl
    | cons e es ih =>
      intro w
      simp only [GameView.handleKeyboardEvents]
      rw [ih, handleKeyboardEvent_paused]
  refine ⟨handleKeyboardEvent_paused _ _ _ _ _ _, ?_, ?_, rfl, rfl, fun es => hseq es v,
    fun scaler es => hseq es (GameView.new scaler)⟩
  · simp [GameView.handleKeyboardEvent]
  · simp [GameView.handleKeyboardEvent]

end Retro8
